import Mathlib

/-!
Verification of the TG-263 structure-name parsing engine
(`structure_name_parsing.py`).

The source expresses its grammar as Python `re` patterns with named capture
groups, applied with `fullmatch` (the top-level classifier) or, through
`pandas.Series.str.extract`, with `search` on `^`-anchored patterns (the
remainder-reduction pipeline).  We embed a small backtracking
regular-expression engine whose result list enumerates the match
alternatives in exactly Python's priority order (ordered alternation,
greedy / non-greedy repetition, empty-iteration cut in repetitions), and
transcribe every pattern of the source verbatim into that engine's syntax.
`pyfullmatch` picks the first alternative consuming the whole input;
`pymatch` picks the first alternative found at position 0 (all pipeline
patterns are `^`-anchored, so `re.search` can only match at position 0).

Numeric dose values are modelled as exact rationals; every dose value
appearing in the theorems below is an integer far below 2^53, and the one
inexact intermediate (50.4) rounds in IEEE double arithmetic to the same
final value (5040.0) that exact rational arithmetic produces, so the
Python float computation and the rational model agree on all inputs used.
-/

namespace TG263

/-- Named-capture bindings produced by a match, most recent binding first
(a later binding of the same group name shadows an earlier one, as in
Python where a repeated group keeps its last captured value). -/
abbrev Caps := List (String × String)

/-- Syntax of the fragment of Python regular expressions used by the
source: character tests, end-of-string anchor `$`, concatenation, ordered
alternation `|`, greedy or lazy `*`, greedy or lazy `?`, named groups
`(?P<n>...)`, and negative lookahead `(?!...)`. -/
inductive RE where
  | eps
  | chr (c : Char)
  | cls (p : Char → Bool)
  | eos
  | cat (a b : RE)
  | alt (a b : RE)
  | star (a : RE) (greedy : Bool)
  | opt (a : RE) (greedy : Bool)
  | grp (n : String) (a : RE)
  | nla (a : RE)

/-- The text consumed between input `s` and leftover `rest`. -/
def consumedStr (s rest : List Char) : String :=
  String.mk (s.take (s.length - rest.length))

/-- Backtracking matcher.  `run fuel r s` returns every way `r` can match
a prefix of `s`, as `(leftover, captures)` pairs, in Python's backtracking
priority order (first result = the match Python commits to).  A repetition
iteration that consumes nothing is cut, as in Python; every repetition
body in the transcribed patterns needs at least one character, so the cut
never changes the result set.  `fuel` bounds the recursion depth; each
recursive call uses one unit, and `fuelFor` below provides far more than
the deepest possible call chain for the patterns of the source. -/
def run : Nat → RE → List Char → List (List Char × Caps)
  | 0, _, _ => []
  | _ + 1, .eps, s => [(s, [])]
  | _ + 1, .chr c, s =>
      match s with
      | [] => []
      | x :: xs => if x = c then [(xs, [])] else []
  | _ + 1, .cls p, s =>
      match s with
      | [] => []
      | x :: xs => if p x then [(xs, [])] else []
  | _ + 1, .eos, s => if s.isEmpty then [(s, [])] else []
  | f + 1, .cat a b, s =>
      (run f a s).flatMap (fun p =>
        (run f b p.1).map (fun q => (q.1, q.2 ++ p.2)))
  | f + 1, .alt a b, s => run f a s ++ run f b s
  | f + 1, .star a g, s =>
      let cont := (run f a s).flatMap (fun p =>
        if p.1.length < s.length then
          (run f (.star a g) p.1).map (fun q => (q.1, q.2 ++ p.2))
        else [])
      if g then cont ++ [(s, [])] else (s, []) :: cont
  | f + 1, .opt a g, s =>
      if g then run f a s ++ [(s, [])] else (s, []) :: run f a s
  | f + 1, .grp n a, s =>
      (run f a s).map (fun p => (p.1, (n, consumedStr s p.1) :: p.2))
  | f + 1, .nla a, s => if (run f a s).isEmpty then [(s, [])] else []

/-- Fuel budget: generously above the deepest call chain any source
pattern can produce on `s` (every chain descends either into a strict
subterm of the pattern or, at a repetition, into a strictly shorter
input). -/
def fuelFor (s : String) : Nat := 200 * (s.length + 2)

/-- Python `pattern.fullmatch(s)`: the first backtracking alternative that
consumes the entire input, if any. -/
def pyfullmatch (r : RE) (s : String) : Option Caps :=
  ((run (fuelFor s) r s.data).find? (fun p => p.1.isEmpty)).map (fun p => p.2)

/-- Python `pattern.search(s)` for the `^`-anchored patterns of the
reduction pipeline: the first backtracking alternative at position 0. -/
def pymatch (r : RE) (s : String) : Option Caps :=
  (run (fuelFor s) r s.data).head?.map (fun p => p.2)

/-- Group names occurring in a pattern. -/
def groupNames : RE → List String
  | .eps | .chr _ | .cls _ | .eos => []
  | .cat a b => groupNames a ++ groupNames b
  | .alt a b => groupNames a ++ groupNames b
  | .star a _ => groupNames a
  | .opt a _ => groupNames a
  | .grp n a => n :: groupNames a
  | .nla a => groupNames a

/-- Group names that participate in every successful match of a pattern
(a conservative underapproximation: required on both sides of `|`,
anywhere in a concatenation, never inside `?`, `*` or a lookahead). -/
def requiredNames : RE → List String
  | .eps | .chr _ | .cls _ | .eos => []
  | .cat a b => requiredNames a ++ requiredNames b
  | .alt a b => (requiredNames a).inter (requiredNames b)
  | .star _ _ => []
  | .opt _ _ => []
  | .grp n a => n :: requiredNames a
  | .nla _ => []

/-- Patterns that consume at least one character on every match. -/
def consumes : RE → Bool
  | .eps | .eos | .nla _ => false
  | .chr _ | .cls _ => true
  | .cat a b => consumes a || consumes b
  | .alt a b => consumes a && consumes b
  | .star _ _ => false
  | .opt _ _ => false
  | .grp _ a => consumes a

/-- Every group named `n` inside the pattern has a body that consumes at
least one character (so its captures are never the empty string). -/
def goodGrp (n : String) : RE → Bool
  | .eps | .chr _ | .cls _ | .eos => true
  | .cat a b => goodGrp n a && goodGrp n b
  | .alt a b => goodGrp n a && goodGrp n b
  | .star a _ => goodGrp n a
  | .opt a _ => goodGrp n a
  | .grp m a => (if m = n then consumes a else true) && goodGrp n a
  | .nla a => goodGrp n a

/-- Patterns without negative lookahead (for these, a match found at some
fuel persists at any larger fuel). -/
def nlaFree : RE → Bool
  | .eps | .chr _ | .cls _ | .eos => true
  | .cat a b => nlaFree a && nlaFree b
  | .alt a b => nlaFree a && nlaFree b
  | .star a _ => nlaFree a
  | .opt a _ => nlaFree a
  | .grp _ a => nlaFree a
  | .nla _ => false

/-- The number of syntax nodes of a pattern.  `run f r s` never descends
more than `sizeRE r + s.length` calls deep before either the pattern or
the input shrinks away, so any two fuels above that bound give the same
result list (`run_fuel_indep` below). -/
def sizeRE : RE → Nat
  | .eps => 1
  | .chr _ => 1
  | .cls _ => 1
  | .eos => 1
  | .cat a b => sizeRE a + sizeRE b + 1
  | .alt a b => sizeRE a + sizeRE b + 1
  | .star a _ => sizeRE a + 1
  | .opt a _ => sizeRE a + 1
  | .grp _ a => sizeRE a + 1
  | .nla a => sizeRE a + 1

/-! ### Pattern-building helpers (transcription vocabulary) -/

/-- A literal string, character by character. -/
def litRE : List Char → RE
  | [] => .eps
  | c :: cs => .cat (.chr c) (litRE cs)

/-- Right-nested ordered alternation, first alternative first. -/
def altL : List RE → RE
  | [] => .eps
  | [r] => r
  | r :: rs => .alt r (altL rs)

/-- Python `.` (any character except a newline). -/
def anyc : RE := .cls (fun c => c != '\n')

/-- Greedy `.*`. -/
def dotStar : RE := .star anyc true

/-- Non-greedy `.*?`. -/
def dotStarLazy : RE := .star anyc false

/-- Greedy `.+`. -/
def dotPlus : RE := .cat anyc (.star anyc true)

/-- Greedy `r+`. -/
def plusRE (r : RE) : RE := .cat r (.star r true)

/-- `[A-Z]`. -/
def upperC : RE := .cls Char.isUpper

/-- `[a-z]`. -/
def lowerC : RE := .cls Char.isLower

/-- `[0-9]`. -/
def digitC : RE := .cls Char.isDigit

/-- `[si]` (plural marker). -/
def siC : RE := .cls (fun c => c == 's' || c == 'i')

/-- Greedy `[0-9]{0,2}`. -/
def dig02 : RE := .opt (.cat digitC (.opt digitC true)) true

/-- Greedy `[0-9]{1,2}`. -/
def dig12 : RE := .cat digitC (.opt digitC true)

/-! ### The source's patterns, transcribed one for one

Each definition below mirrors the identically named pattern of
`structure_name_parsing.py`; the `^` anchors of the pipeline patterns are
implicit (`pymatch` matches at position 0 only) and `$` is the `eos`
node. -/

/-- `not_evaluated_pat`: `(?P<NotEvalChar>[zZ_])(?P<NotEvaluated>.*)`. -/
def not_evaluated_re : RE :=
  .cat (.grp "NotEvalChar" (.cls (fun c => c == 'z' || c == 'Z' || c == '_')))
    (.grp "NotEvaluated" dotStar)

/-- `basic_sub_structure_pat`:
`([A-Z]([A-Z]+|[a-z]+)?[si]?[~]?[0-9]{0,2}_?\^?)`. -/
def basic_sub_structure_re : RE :=
  .cat upperC
    (.cat (.opt (.alt (plusRE upperC) (plusRE lowerC)) true)
      (.cat (.opt siC true)
        (.cat (.opt (.chr '~') true)
          (.cat dig02
            (.cat (.opt (.chr '_') true) (.opt (.chr '^') true))))))

/-- `basic_structure_pat`: `(?P<StructureName>(basic_sub)+)`. -/
def basic_structure_re : RE :=
  .grp "StructureName" (plusRE basic_sub_structure_re)

/-- `category_def`: the category-code lookup table, in source order. -/
def category_def : List (String × String) :=
  [("A", "artery"), ("V", "vein"), ("LN", "lymph node"),
   ("CN", "cranial nerve"), ("Glnd", "glandular structure"),
   ("Bone", "bone"), ("Musc", "muscle"), ("Spc", "Space"),
   ("VB", "vertebral body"), ("Sinus", "sinus")]

/-- `major_category_pat`:
`^(?P<StructureCategory>(?:A|V|LN|CN|Glnd|Bone|Musc|VB|Sinus)(?P<Pleural>[si])?)(?:_(?P<Remainder>.*))?$`.
Note the root-option list of the compiled pattern, copied here verbatim,
has no `Spc` alternative even though `category_def` lists it. -/
def major_category_re : RE :=
  .cat
    (.grp "StructureCategory"
      (.cat
        (altL [litRE "A".data, litRE "V".data, litRE "LN".data,
               litRE "CN".data, litRE "Glnd".data, litRE "Bone".data,
               litRE "Musc".data, litRE "VB".data, litRE "Sinus".data])
        (.opt (.grp "Pleural" siC) true)))
    (.cat (.opt (.cat (.chr '_') (.grp "Remainder" dotStar)) true) .eos)

/-- `custom_oar_qualifier_pat`:
`^(?P<Remainder>[^^]*)(?:(?:\^)(?P<CustomStructure>.+))?` (no `$`). -/
def custom_oar_qualifier_re : RE :=
  .cat (.grp "Remainder" (.star (.cls (fun c => c != '^')) true))
    (.opt (.cat (.chr '^') (.grp "CustomStructure" dotPlus)) true)

/-- `vertebrae_level`: vertebra-letter lookup table. -/
def vertebrae_level : List (String × String) :=
  [("C", "Cervical"), ("T", "Thoracic"), ("L", "Lumbar"), ("S", "Sacral")]

/-- `vb_ref_pat`:
`^(?P<VertebraeLevel>[CTLS])(?P<VertebraeNumber>[0-9]{0,2})(?:_(?P<Remainder>.*))?$`. -/
def vb_ref_re : RE :=
  .cat (.grp "VertebraeLevel"
      (.cls (fun c => c == 'C' || c == 'T' || c == 'L' || c == 'S')))
    (.cat (.grp "VertebraeNumber" dig02)
      (.cat (.opt (.cat (.chr '_') (.grp "Remainder" dotStar)) true) .eos))

/-- `[IVX]` (Roman-numeral characters). -/
def romanC : RE := .cls (fun c => c == 'I' || c == 'V' || c == 'X')

/-- `cn_ref_pat`:
`^(?P<NerveLevel>[IVX]+)(?:_(?P<Remainder>.*))?$`. -/
def cn_ref_re : RE :=
  .cat (.grp "NerveLevel" (plusRE romanC))
    (.cat (.opt (.cat (.chr '_') (.grp "Remainder" dotStar)) true) .eos)

/-- `nn_ref_pat`:
`^(?P<NeckNode>Neck)_(?P<NodeLevel>[IVX]+[AB]?)(?:_(?P<Remainder>.*))?$`. -/
def nn_ref_re : RE :=
  .cat (.grp "NeckNode" (litRE "Neck".data))
    (.cat (.chr '_')
      (.cat (.grp "NodeLevel"
          (.cat (plusRE romanC)
            (.opt (.cls (fun c => c == 'A' || c == 'B')) true)))
        (.cat (.opt (.cat (.chr '_') (.grp "Remainder" dotStar)) true) .eos)))

/-- `spatial_def`: the spatial-indicator lookup table, in source order. -/
def spatial_def : List (String × String) :=
  [("L", "left"), ("R", "Right"), ("A", "Anterior"), ("P", "Posterior"),
   ("I", "Inferior"), ("S", "Superior"), ("RUL", "Right Upper lobe"),
   ("RLL", "Right Lower lobe"), ("RML", "Right middle lobe"),
   ("LUL", "Left Upper lobe"), ("LLL", "LeftLower lobe"),
   ("NAdj", "non-adjacent"), ("Dist", "distal"), ("Prox", "proximal")]

/-- `spatial_pat`:
`^(?:(?P<Remainder>.*?)_)?(?P<SpatialIndicator>(?:L|R|A|P|I|S|NAdj|Dist|Prox|RUL|RLL|LUL|LLL)+)$`.
The compiled alternative list, copied verbatim, has no `RML` alternative
even though `spatial_def` lists it. -/
def spatial_re : RE :=
  .cat (.opt (.cat (.grp "Remainder" dotStarLazy) (.chr '_')) true)
    (.cat
      (.grp "SpatialIndicator"
        (plusRE (altL [litRE "L".data, litRE "R".data, litRE "A".data,
                       litRE "P".data, litRE "I".data, litRE "S".data,
                       litRE "NAdj".data, litRE "Dist".data,
                       litRE "Prox".data, litRE "RUL".data,
                       litRE "RLL".data, litRE "LUL".data,
                       litRE "LLL".data])))
      .eos)

/-- `prv_pat`:
`^(?P<Remainder>.*?)_?(?P<Prv>PRV(?P<PrvSize>[0-9]{1,2})?)$`. -/
def prv_re : RE :=
  .cat (.grp "Remainder" dotStarLazy)
    (.cat (.opt (.chr '_') true)
      (.cat (.grp "Prv"
          (.cat (litRE "PRV".data) (.opt (.grp "PrvSize" dig12) true)))
        .eos))

/-- `partial_pat` of the source (`~` marker):
`^(?P<Remainder>.*?)(?P<Partial>~)$`. -/
def tilde_mark_re : RE :=
  .cat (.grp "Remainder" dotStarLazy) (.cat (.grp "Partial" (.chr '~')) .eos)

/-- A capitalized camel-case word segment: `[A-Z](?:[A-Z]+|[a-z]+)`. -/
def wordSeg : RE := .cat upperC (.alt (plusRE upperC) (plusRE lowerC))

/-- `base_structure_pat`:
`^(?P<BaseStructure>(?:[A-Z](?:[A-Z]+|[a-z]+)){1,2}(?P<Pleural>[si])?)(?:_(?P<StructureQualifier>[A-Z](?:[A-Z]+|[a-z]+))|(?:_?(?P<StructureNumber>[A-Z]?[0-9]+)))*(?P<Remainder>.*)$`. -/
def base_structure_re : RE :=
  .cat
    (.grp "BaseStructure"
      (.cat wordSeg
        (.cat (.opt wordSeg true) (.opt (.grp "Pleural" siC) true))))
    (.cat
      (.star
        (.alt (.cat (.chr '_') (.grp "StructureQualifier" wordSeg))
          (.cat (.opt (.chr '_') true)
            (.grp "StructureNumber"
              (.cat (.opt upperC true) (plusRE digitC)))))
        true)
      (.cat (.grp "Remainder" dotStar) .eos))

/-- `target_type_pat`: `(GTV|CTV|PTV|ITV|IGTV|ICTV|PTV!)`. -/
def target_type_re : RE :=
  altL [litRE "GTV".data, litRE "CTV".data, litRE "PTV".data,
        litRE "ITV".data, litRE "IGTV".data, litRE "ICTV".data,
        litRE "PTV!".data]

/-- `target_classifier_pat`: `(par|vas|sb|n|p|v)?`. -/
def target_classifier_re : RE :=
  .opt (altL [litRE "par".data, litRE "vas".data, litRE "sb".data,
              litRE "n".data, litRE "p".data, litRE "v".data]) true

/-- `target_number_pat`: `([0-9]{1,2})?`. -/
def target_number_re : RE := .opt dig12 true

/-- `base_target_pat`:
`(?P<BaseTarget>(?P<TargetType>..)(?P<TargetClassifier>..)?(?P<TargetNumber>..)?)`. -/
def base_target_re : RE :=
  .grp "BaseTarget"
    (.cat (.grp "TargetType" target_type_re)
      (.cat (.opt (.grp "TargetClassifier" target_classifier_re) true)
        (.opt (.grp "TargetNumber" target_number_re) true)))

/-- One modality item: `(CT|PT|MR|US|SP)[0-9]{0,2}`. -/
def modalityItem : RE :=
  .cat (altL [litRE "CT".data, litRE "PT".data, litRE "MR".data,
              litRE "US".data, litRE "SP".data]) dig02

/-- `modality_pat`: `((?:_)(?P<Modality>((CT|PT|MR|US|SP)[0-9]{0,2}){1,2}))?`. -/
def modality_re : RE :=
  .opt (.cat (.chr '_')
      (.grp "Modality" (.cat modalityItem (.opt modalityItem true)))) true

/-- `struct_ind_pat`:
`((?:_)(?!Hig|Mid|Low)(?P<StructureIndicator>(basic_sub)+))?`. -/
def struct_ind_re : RE :=
  .opt (.cat (.chr '_')
      (.cat (.nla (altL [litRE "Hig".data, litRE "Mid".data,
                         litRE "Low".data]))
        (.grp "StructureIndicator" (plusRE basic_sub_structure_re)))) true

/-- `rel_dose_pat`:
`(?P<RelativeDose>High|Low|Mid(?P<RelativeDoseLevel>[0-9]{2})?)`. -/
def rel_dose_re : RE :=
  .grp "RelativeDose"
    (.alt (litRE "High".data)
      (.alt (litRE "Low".data)
        (.cat (litRE "Mid".data)
          (.opt (.grp "RelativeDoseLevel" (.cat digitC digitC)) true))))

/-- `[.p]` (decimal point, possibly encoded as `p`). -/
def dotpC : RE := .cls (fun c => c == '.' || c == 'p')

/-- `[Gy]` (one character of an optional `Gy` unit marker). -/
def gyC : RE := .cls (fun c => c == 'G' || c == 'y')

/-- `numeric_dose_pat`: `(?P<NumericDose>[0-9]+[.p]?[0-9]*[Gy]*)`. -/
def numeric_dose_re : RE :=
  .grp "NumericDose"
    (.cat (plusRE digitC)
      (.cat (.opt dotpC true)
        (.cat (.star digitC true) (.star gyC true))))

/-- `dose_fraction_pat`:
`(?P<DoseFractionation>[0-9]+[.p]?[0-9]*[Gy]*x[0-9]+)`. -/
def dose_fraction_re : RE :=
  .grp "DoseFractionation"
    (.cat (plusRE digitC)
      (.cat (.opt dotpC true)
        (.cat (.star digitC true)
          (.cat (.star gyC true) (.cat (.chr 'x') (plusRE digitC))))))

/-- `dose_specifier`:
`((?:_)(?P<DoseSpecifier>rel_dose|dose_fraction|numeric_dose))?` — the
fraction form is the second alternative, before the plain numeric form. -/
def dose_specifier_re : RE :=
  .opt (.cat (.chr '_')
      (.grp "DoseSpecifier"
        (.alt rel_dose_re (.alt dose_fraction_re numeric_dose_re)))) true

/-- The first `target_crop_pat` of the source (external-crop suffix):
`(?P<ExternalCrop>(?P<Sign>-)(?P<Size>[0-9]{2}))?`. -/
def external_crop_re : RE :=
  .opt (.grp "ExternalCrop"
      (.cat (.grp "Sign" (.chr '-')) (.grp "Size" (.cat digitC digitC)))) true

/-- `target_custom_qualifier_pat`: `((?:\^)(?P<CustomTarget>.+))?`. -/
def target_custom_qualifier_re : RE :=
  .opt (.cat (.chr '^') (.grp "CustomTarget" dotPlus)) true

/-- `target_pattern`: the six target components concatenated. -/
def target_re : RE :=
  .cat base_target_re
    (.cat modality_re
      (.cat struct_ind_re
        (.cat dose_specifier_re
          (.cat external_crop_re target_custom_qualifier_re))))

/-- `cropped_oar_pat`: `(?P<CroppedOAR>(basic_sub)+)`. -/
def cropped_oar_re : RE :=
  .grp "CroppedOAR" (plusRE basic_sub_structure_re)

/-- The second `target_crop_pat` of the source (crop block of an OAR):
`(?P<TargetCrop>target_type(target_classifier)?(target_number)?)`. -/
def target_crop2_re : RE :=
  .grp "TargetCrop"
    (.cat target_type_re
      (.cat (.opt target_classifier_re true) (.opt target_number_re true)))

/-- `oar_crop_pat`: `(?P<OARCrop>cropped_oar-target_crop)`. -/
def oar_crop_re : RE :=
  .grp "OARCrop" (.cat cropped_oar_re (.cat (.chr '-') target_crop2_re))

/-- `all_structure_pattern` / `structure_pat`: the four alternatives in
the source's priority order. -/
def all_structure_re : RE :=
  .alt not_evaluated_re (.alt target_re (.alt oar_crop_re basic_structure_re))

/-- The per-name top-level classification (`structure_pat.fullmatch`). -/
def classify (s : String) : Option Caps := pyfullmatch all_structure_re s

/-- A name is identified as NotEvaluated when the classifier's
`NotEvalChar` presence group participated in the match. -/
def isNotEvaluated (s : String) : Bool :=
  ((classify s).bind (fun caps => caps.lookup "NotEvalChar")).isSome

/-- The four class-presence groups, one per top-level alternative (in the
priority order of `all_structure_pattern`). -/
def classKeys : List String :=
  ["NotEvalChar", "BaseTarget", "OARCrop", "StructureName"]

/-! ### The remainder-reduction pipeline (Parse Non-Target Structures)

For names whose `StructureName` group matched, the source initializes a
`Remainder` column with the captured `StructureName` and applies
`extract_name_group` with each pipeline pattern in turn: if the step's
designated match column participated, `Remainder` is replaced by the
step's own `Remainder` capture (absent capture = missing value);
otherwise it is left untouched.  An absent (NaN) remainder makes every
later `str.extract` produce only missing values, so a step never fires on
it. -/

/-- Per-name pipeline state: the accumulated extracted fields (the merged
group columns, most recent first) and the running `Remainder` column
entry (`none` = missing value). -/
structure PipeState where
  fields : Caps
  rem : Option String
deriving DecidableEq

/-- One `extract_name_group` application restricted by a row condition
(the `idx` mask of the source, a predicate on the fields extracted so
far). -/
def stepApply (cond : Caps → Bool) (pat : RE) (matchCol : String)
    (st : PipeState) : PipeState :=
  if cond st.fields then
    match st.rem with
    | none => st
    | some r =>
      match pymatch pat r with
      | none => st
      | some caps =>
        let merged := caps.filter (fun p => p.1 ≠ "Remainder") ++ st.fields
        if (caps.lookup matchCol).isSome then
          { fields := merged, rem := caps.lookup "Remainder" }
        else
          { fields := merged, rem := st.rem }
  else st

/-- The fixed step sequence of the source, with the `is_vb` / `is_cn` /
`is_ln` conditions on the extracted `StructureCategory`. -/
def runPipeline (sn : String) : PipeState :=
  let st0 : PipeState := ⟨[], some sn⟩
  let st1 := stepApply (fun _ => true) major_category_re "StructureCategory" st0
  let st2 := stepApply (fun _ => true) custom_oar_qualifier_re "CustomStructure" st1
  let st3 := stepApply (fun f => f.lookup "StructureCategory" == some "VB")
    vb_ref_re "VertebraeLevel" st2
  let st4 := stepApply (fun f => f.lookup "StructureCategory" == some "CN")
    cn_ref_re "NerveLevel" st3
  let st5 := stepApply (fun f => f.lookup "StructureCategory" == some "LN")
    nn_ref_re "NeckNode" st4
  let st6 := stepApply (fun _ => true) spatial_re "SpatialIndicator" st5
  let st7 := stepApply (fun _ => true) prv_re "Prv" st6
  let st8 := stepApply (fun _ => true) tilde_mark_re "Partial" st7
  stepApply (fun _ => true) base_structure_re "BaseStructure" st8

/-- The final `Remainder` column entry of a name: the pipeline's final
remainder when the name was classified BasicOAR (its `StructureName`
group matched), and a missing value otherwise. -/
def oarFinalRemainder (s : String) : Option String :=
  match (classify s).bind (fun caps => caps.lookup "StructureName") with
  | some sn => (runPipeline sn).rem
  | none => none

/-- `Um2` of the source: `Remainder.str.len() > 0`, with missing values
filled as `False`. -/
def um2 (rem : Option String) : Bool :=
  match rem with
  | some r => decide (0 < r.length)
  | none => false

/-- The final `Unmatched` flag: the source sets `Unmatched` of a row to
`True` where `Um2` holds and keeps the earlier value elsewhere; the
earlier value (`unmatched_idx`: every extracted column missing) holds
exactly when the top-level classifier failed, since any full match binds
at least one group column. -/
def oarUnmatched (s : String) : Bool :=
  if um2 (oarFinalRemainder s) then true else (classify s).isNone

/-! ### The plain validation helpers of the source -/

/-- Python's bitwise complement applied to a `bool` (the source's
`return ~has_dup` / `return ~has_space`): `~True == -2`,
`~False == -1`. -/
def pyInvert (b : Bool) : Int := -(if b then (1 : Int) else 0) - 1

/-- `no_spaces`: `has_space = ' ' in text; return ~has_space`. -/
def no_spaces (text : String) : Int := pyInvert (text.data.contains ' ')

/-- Python `str.lower()`, character by character (the structure names of
the standard are ASCII, where per-character lowering coincides with
Python's). -/
def pyLower (s : String) : String := String.mk (s.data.map Char.toLower)

/-- The number of distinct strings in a list (the size of Python's
`set(...)`). -/
def distinctCount : List String → Nat
  | [] => 0
  | x :: xs => (if x ∈ xs then 0 else 1) + distinctCount xs

/-- `no_dup`: lower-case the names, compare the set's size with the
list's length, and return the bitwise complement of `has_dup`. -/
def no_dup (structures : List String) : Int :=
  let uniqCount := distinctCount (structures.map pyLower)
  pyInvert (decide (uniqCount < structures.length))

/-! ### The dose normalizer `to_cgy` -/

/-- A Python value that is either the untouched input text (the failure
marker) or a number.  Numbers are modelled as exact rationals; see the
header note on IEEE agreement. -/
inductive PyVal where
  | str (s : String)
  | num (q : ℚ)
deriving DecidableEq

/-- The `{'TotalDose': …, 'Fractions': …}` result of `to_cgy`. -/
structure DoseResult where
  TotalDose : PyVal
  Fractions : Option Int
deriving DecidableEq

/-- Python `str.split(c, 1)`: the part before the first occurrence of
`c`, and the rest after it if `c` occurs. -/
def splitFirst (c : Char) : List Char → List Char × Option (List Char)
  | [] => ([], none)
  | x :: xs =>
    if x = c then ([], some xs)
    else
      let r := splitFirst c xs
      (x :: r.1, r.2)

/-- The value of a digit string. -/
def digitsVal (l : List Char) : Nat :=
  l.foldl (fun acc c => acc * 10 + (c.toNat - 48)) 0

/-- Unsigned decimal literal accepted by Python's `float` (digits with at
most one decimal point; the exotic forms — exponents, `inf`, `nan`,
surrounding whitespace, underscores — are not exercised by the source's
dose grammar and are left out). -/
def floatCore (m : List Char) : Option ℚ :=
  match splitFirst '.' m with
  | (ip, none) =>
    if ip.isEmpty then none
    else if ip.all Char.isDigit then some (digitsVal ip) else none
  | (ip, some fp) =>
    if ip.isEmpty && fp.isEmpty then none
    else if ip.all Char.isDigit && fp.all Char.isDigit then
      some ((digitsVal ip : ℚ) + (digitsVal fp : ℚ) / ((10 : ℚ) ^ fp.length))
    else none

/-- Python `float(text)`, with an optional sign. -/
def pyFloat? : List Char → Option ℚ
  | '+' :: rest => floatCore rest
  | '-' :: rest => (floatCore rest).map (fun q => -q)
  | l => floatCore l

/-- Unsigned decimal integer literal. -/
def intCore (m : List Char) : Option Nat :=
  if m.isEmpty then none
  else if m.all Char.isDigit then some (digitsVal m) else none

/-- Python `int(text)`, with an optional sign. -/
def pyInt? : List Char → Option Int
  | '+' :: rest => (intCore rest).map Int.ofNat
  | '-' :: rest => (intCore rest).map (fun n => -(n : Int))
  | l => (intCore l).map Int.ofNat

/-- Python `dose_str.endswith('Gy')`. -/
def endsGy (l : List Char) : Bool := l.reverse.take 2 == ['y', 'G']

/-- The dose-part conversion of `to_cgy`: strip a trailing `Gy` and
multiply by 100, or read the text directly as centigray. -/
def parseDosePart (ds : List Char) : Option ℚ :=
  if endsGy ds then (pyFloat? ds.dropLast.dropLast).map (fun q => q * 100)
  else pyFloat? ds

/-- The tail of `to_cgy` after the fraction split: parse the dose part,
then multiply by the fraction count — guarded by Python truthiness of the
count (`if fractions:`), so a parsed count of 0 skips the
multiplication. -/
def to_cgy_finish (text : String) (ds : List Char) (fractions : Option Int) :
    DoseResult :=
  match parseDosePart ds with
  | none => ⟨.str text, none⟩
  | some dose =>
    let total : ℚ :=
      match fractions with
      | some n => if n ≠ 0 then dose * (n : ℚ) else dose
      | none => dose
    ⟨.num total, fractions⟩

/-- `to_cgy`: convert a dose-specifier string to total dose in cGy and a
fraction count.  Mirrors the source line by line: empty text and every
parse failure return the original text with no fraction count. -/
def to_cgy (text : String) : DoseResult :=
  if text = "" then ⟨.str text, none⟩
  else
    let conv := text.data.map (fun c => if c = 'p' then '.' else c)
    let parts := splitFirst 'x' conv
    match parts.2 with
    | some fracStr =>
      match pyInt? fracStr with
      | none => ⟨.str text, none⟩
      | some fr => to_cgy_finish text parts.1 (some fr)
    | none => to_cgy_finish text parts.1 none

/-- The shape of a dose token accepted by `dose_fraction_pat`
(`[0-9]+[.p]?[0-9]*[Gy]*x[0-9]+`), spelled out as a decomposition of the
string. -/
def FracShape (d : String) : Prop :=
  ∃ (i p j g k : List Char),
    d.data = i ++ (p ++ (j ++ (g ++ 'x' :: k))) ∧
    i ≠ [] ∧ i.all Char.isDigit ∧
    (p = [] ∨ p = ['.'] ∨ p = ['p']) ∧
    j.all Char.isDigit ∧
    g.all (fun c => c == 'G' || c == 'y') ∧
    k ≠ [] ∧ k.all Char.isDigit

/-- Characters a pattern can consume: every character test of `r` only
accepts characters satisfying `Q`. -/
def charBound (Q : Char → Bool) : RE → Prop
  | .chr c => Q c = true
  | .cls p => ∀ c, p c = true → Q c = true
  | .eps => True
  | .eos => True
  | .cat a b => charBound Q a ∧ charBound Q b
  | .alt a b => charBound Q a ∧ charBound Q b
  | .star a _ => charBound Q a
  | .opt a _ => charBound Q a
  | .grp _ a => charBound Q a
  | .nla _ => True

/-! ## Association-list helpers -/

theorem lookup_cons_self (n v : String) (t : Caps) :
    List.lookup n ((n, v) :: t) = some v := by
  rw [List.lookup_cons, show (n == n) = true from beq_self_eq_true n]

theorem lookup_cons_ne {n m : String} (v : String) (t : Caps) (h : n ≠ m) :
    List.lookup n ((m, v) :: t) = List.lookup n t := by
  rw [List.lookup_cons, show (n == m) = false from beq_eq_false_iff_ne.mpr h]

theorem lookup_isSome_of_mem {n : String} {v : String} :
    ∀ {l : Caps}, (n, v) ∈ l → (l.lookup n).isSome := by
  intro l h
  induction l with
  | nil => simp at h
  | cons p t ih =>
    rcases p with ⟨m, w⟩
    by_cases hb : n = m
    · subst hb; simp [lookup_cons_self]
    · rcases List.mem_cons.mp h with h | h
      · exact absurd (congrArg Prod.fst h) hb
      · rw [lookup_cons_ne _ _ hb]
        exact ih h

theorem lookup_eq_none_iff {n : String} :
    ∀ {l : Caps}, l.lookup n = none ↔ ∀ v, (n, v) ∉ l := by
  intro l
  induction l with
  | nil => simp
  | cons p t ih =>
    rcases p with ⟨m, w⟩
    by_cases hb : n = m
    · subst hb
      simp only [lookup_cons_self]
      constructor
      · intro h; exact absurd h (by simp)
      · intro h; exact absurd (List.mem_cons_self _ _) (h w)
    · rw [lookup_cons_ne _ _ hb, ih]
      constructor
      · intro h v hv
        rcases List.mem_cons.mp hv with hv | hv
        · exact hb (congrArg Prod.fst hv)
        · exact h v hv
      · intro h v hv
        exact h v (List.mem_cons_of_mem _ hv)

theorem mem_of_lookup_eq_some {n v : String} :
    ∀ {l : Caps}, l.lookup n = some v → (n, v) ∈ l := by
  intro l h
  induction l with
  | nil => simp [List.lookup] at h
  | cons p t ih =>
    rcases p with ⟨m, w⟩
    by_cases hb : n = m
    · subst hb
      rw [lookup_cons_self] at h
      rw [Option.some_inj.mp h]
      exact List.mem_cons_self _ _
    · rw [lookup_cons_ne _ _ hb] at h
      exact List.mem_cons_of_mem _ (ih h)

theorem findFirst_append_left {α : Type} {p : α → Bool} {x : α} :
    ∀ {l₁ l₂ : List α}, l₁.find? p = some x → (l₁ ++ l₂).find? p = some x := by
  intro l₁ l₂ h
  induction l₁ with
  | nil => simp [List.find?] at h
  | cons a t ih =>
    by_cases ha : p a
    · simp_all [List.find?_cons_of_pos _ ha]
    · rw [List.find?_cons_of_neg _ ha] at h
      simpa [List.find?_cons_of_neg _ ha] using ih h

theorem findFirst_isSome_of_mem {α : Type} {p : α → Bool} {x : α} :
    ∀ {l : List α}, x ∈ l → p x = true → (l.find? p).isSome := by
  intro l hm hp
  induction l with
  | nil => simp at hm
  | cons a t ih =>
    rcases List.mem_cons.mp hm with h | h
    · subst h; simp [List.find?_cons_of_pos _ hp]
    · by_cases ha : p a
      · simp [List.find?_cons_of_pos _ ha]
      · simpa [List.find?_cons_of_neg _ ha] using ih h

/-! ## Inversion lemmas for the matcher -/

theorem mem_run_cat {f : Nat} {a b : RE} {s : List Char}
    {res : List Char × Caps} (h : res ∈ run f (.cat a b) s) :
    ∃ f' p q, f = f' + 1 ∧ p ∈ run f' a s ∧ q ∈ run f' b p.1 ∧
      res = (q.1, q.2 ++ p.2) := by
  rcases f with _ | f
  · simp [run] at h
  · simp only [run, List.mem_flatMap, List.mem_map] at h
    obtain ⟨p, hp, q, hq, rfl⟩ := h
    exact ⟨f, p, q, rfl, hp, hq, rfl⟩

theorem mem_run_alt {f : Nat} {a b : RE} {s : List Char}
    {res : List Char × Caps} (h : res ∈ run f (.alt a b) s) :
    ∃ f', f = f' + 1 ∧ (res ∈ run f' a s ∨ res ∈ run f' b s) := by
  rcases f with _ | f
  · simp [run] at h
  · simp only [run, List.mem_append] at h
    exact ⟨f, rfl, h⟩

theorem mem_run_grp {f : Nat} {n : String} {a : RE} {s : List Char}
    {res : List Char × Caps} (h : res ∈ run f (.grp n a) s) :
    ∃ f' p, f = f' + 1 ∧ p ∈ run f' a s ∧
      res = (p.1, (n, consumedStr s p.1) :: p.2) := by
  rcases f with _ | f
  · simp [run] at h
  · simp only [run, List.mem_map] at h
    obtain ⟨p, hp, rfl⟩ := h
    exact ⟨f, p, rfl, hp, rfl⟩

theorem mem_run_cls {f : Nat} {p : Char → Bool} {s : List Char}
    {res : List Char × Caps} (h : res ∈ run f (.cls p) s) :
    ∃ c cs, s = c :: cs ∧ p c = true ∧ res = (cs, []) := by
  rcases f with _ | f
  · simp [run] at h
  · cases s with
    | nil => simp [run] at h
    | cons c cs =>
      by_cases hc : p c
      · simp [run, hc] at h
        exact ⟨c, cs, rfl, hc, h⟩
      · simp [run, hc] at h

theorem mem_run_chr {f : Nat} {c : Char} {s : List Char}
    {res : List Char × Caps} (h : res ∈ run f (.chr c) s) :
    ∃ cs, s = c :: cs ∧ res = (cs, []) := by
  rcases f with _ | f
  · simp [run] at h
  · cases s with
    | nil => simp [run] at h
    | cons x cs =>
      by_cases hc : x = c
      · subst hc
        simp [run] at h
        exact ⟨cs, rfl, h⟩
      · simp [run, hc] at h

theorem mem_run_opt {f : Nat} {a : RE} {g : Bool} {s : List Char}
    {res : List Char × Caps} (h : res ∈ run f (.opt a g) s) :
    ∃ f', f = f' + 1 ∧ (res = (s, []) ∨ res ∈ run f' a s) := by
  rcases f with _ | f
  · simp [run] at h
  · refine ⟨f, rfl, ?_⟩
    cases g
    · rw [show run (f + 1) (.opt a false) s = (s, []) :: run f a s from by
        simp [run]] at h
      rcases List.mem_cons.mp h with h | h
      · exact Or.inl h
      · exact Or.inr h
    · rw [show run (f + 1) (.opt a true) s = run f a s ++ [(s, [])] from by
        simp [run]] at h
      rcases List.mem_append.mp h with h | h
      · exact Or.inr h
      · exact Or.inl (List.mem_singleton.mp h)

theorem star_run_eq (f : Nat) (a : RE) (g : Bool) (s : List Char) :
    run (f + 1) (.star a g) s =
      (let cont := (run f a s).flatMap (fun p =>
        if p.1.length < s.length then
          (run f (.star a g) p.1).map (fun q => (q.1, q.2 ++ p.2))
        else []);
      if g then cont ++ [(s, [])] else (s, []) :: cont) := rfl

theorem mem_star_cont {f : Nat} {a : RE} {g : Bool} {s : List Char}
    {res : List Char × Caps}
    (h : res ∈ (run f a s).flatMap (fun p =>
      if p.1.length < s.length then
        (run f (.star a g) p.1).map (fun q => (q.1, q.2 ++ p.2))
      else [])) :
    ∃ p q, p ∈ run f a s ∧ p.1.length < s.length ∧
      q ∈ run f (.star a g) p.1 ∧ res = (q.1, q.2 ++ p.2) := by
  rw [List.mem_flatMap] at h
  obtain ⟨p, hp, hres⟩ := h
  by_cases hl : p.1.length < s.length
  · rw [if_pos hl, List.mem_map] at hres
    obtain ⟨q, hq, rfl⟩ := hres
    exact ⟨p, q, hp, hl, hq, rfl⟩
  · simp [if_neg hl] at hres

theorem mem_run_star {f : Nat} {a : RE} {g : Bool} {s : List Char}
    {res : List Char × Caps} (h : res ∈ run f (.star a g) s) :
    ∃ f', f = f' + 1 ∧ (res = (s, []) ∨
      ∃ p q, p ∈ run f' a s ∧ p.1.length < s.length ∧
        q ∈ run f' (.star a g) p.1 ∧ res = (q.1, q.2 ++ p.2)) := by
  rcases f with _ | f
  · simp [run] at h
  · refine ⟨f, rfl, ?_⟩
    rw [star_run_eq] at h
    simp only at h
    cases g
    · rw [if_neg (by simp)] at h
      rcases List.mem_cons.mp h with h | h
      · exact Or.inl h
      · exact Or.inr (mem_star_cont h)
    · rw [if_pos rfl] at h
      rcases List.mem_append.mp h with h | h
      · exact Or.inr (mem_star_cont h)
      · exact Or.inl (List.mem_singleton.mp h)

theorem mem_run_nla {f : Nat} {a : RE} {s : List Char}
    {res : List Char × Caps} (h : res ∈ run f (.nla a) s) :
    res = (s, []) := by
  rcases f with _ | f
  · simp [run] at h
  · by_cases he : (run f a s).isEmpty <;> simp [run, he] at h
    exact h

theorem mem_run_eps {f : Nat} {s : List Char} {res : List Char × Caps}
    (h : res ∈ run f .eps s) : res = (s, []) := by
  rcases f with _ | f <;> simp [run] at h
  exact h

theorem mem_run_eos {f : Nat} {s : List Char} {res : List Char × Caps}
    (h : res ∈ run f .eos s) : res = (s, []) ∧ s = [] := by
  rcases f with _ | f
  · simp [run] at h
  · cases s <;> simp [run] at h
    exact ⟨h, rfl⟩

/-! ## Introduction lemmas for the matcher -/

theorem cat_intro {f : Nat} {a b : RE} {s : List Char} {p q : List Char × Caps}
    (hp : p ∈ run f a s) (hq : q ∈ run f b p.1) :
    (q.1, q.2 ++ p.2) ∈ run (f + 1) (.cat a b) s := by
  simp only [run, List.mem_flatMap, List.mem_map]
  exact ⟨p, hp, q, hq, rfl⟩

theorem alt_intro_left {f : Nat} {a b : RE} {s : List Char}
    {res : List Char × Caps} (h : res ∈ run f a s) :
    res ∈ run (f + 1) (.alt a b) s := by
  simp only [run, List.mem_append]
  exact Or.inl h

theorem alt_intro_right {f : Nat} {a b : RE} {s : List Char}
    {res : List Char × Caps} (h : res ∈ run f b s) :
    res ∈ run (f + 1) (.alt a b) s := by
  simp only [run, List.mem_append]
  exact Or.inr h

theorem grp_intro {f : Nat} {n : String} {a : RE} {s : List Char}
    {p : List Char × Caps} (hp : p ∈ run f a s) :
    (p.1, (n, consumedStr s p.1) :: p.2) ∈ run (f + 1) (.grp n a) s := by
  simp only [run, List.mem_map]
  exact ⟨p, hp, rfl⟩

theorem cls_intro {f : Nat} {p : Char → Bool} {c : Char} {cs : List Char}
    (hc : p c = true) : (cs, ([] : Caps)) ∈ run (f + 1) (.cls p) (c :: cs) := by
  simp [run, hc]

theorem chr_intro {f : Nat} {c : Char} {cs : List Char} :
    (cs, ([] : Caps)) ∈ run (f + 1) (.chr c) (c :: cs) := by
  simp [run]

theorem opt_intro_skip {f : Nat} {a : RE} {g : Bool} {s : List Char} :
    (s, ([] : Caps)) ∈ run (f + 1) (.opt a g) s := by
  cases g <;> simp [run]

theorem opt_intro_some {f : Nat} {a : RE} {g : Bool} {s : List Char}
    {res : List Char × Caps} (h : res ∈ run f a s) :
    res ∈ run (f + 1) (.opt a g) s := by
  cases g
  · simp only [run, Bool.false_eq_true, if_false]
    exact List.mem_cons_of_mem _ h
  · simp only [run, if_true]
    exact List.mem_append_left _ h

theorem star_intro_skip {f : Nat} {a : RE} {g : Bool} {s : List Char} :
    (s, ([] : Caps)) ∈ run (f + 1) (.star a g) s := by
  rw [star_run_eq]
  cases g <;> simp

theorem star_intro_cons {f : Nat} {a : RE} {g : Bool} {s : List Char}
    {p q : List Char × Caps} (hp : p ∈ run f a s) (hl : p.1.length < s.length)
    (hq : q ∈ run f (.star a g) p.1) :
    (q.1, q.2 ++ p.2) ∈ run (f + 1) (.star a g) s := by
  rw [star_run_eq]
  simp only
  have hm : (q.1, q.2 ++ p.2) ∈ (run f a s).flatMap (fun p =>
      if p.1.length < s.length then
        (run f (.star a g) p.1).map (fun q => (q.1, q.2 ++ p.2))
      else []) := by
    rw [List.mem_flatMap]
    refine ⟨p, hp, ?_⟩
    rw [if_pos hl, List.mem_map]
    exact ⟨q, hq, rfl⟩
  cases g
  · rw [if_neg (by simp)]
    exact List.mem_cons_of_mem _ hm
  · rw [if_pos rfl]
    exact List.mem_append_left _ hm

theorem eps_intro {f : Nat} {s : List Char} :
    (s, ([] : Caps)) ∈ run (f + 1) .eps s := by
  simp [run]

theorem eos_intro {f : Nat} :
    (([] : List Char), ([] : Caps)) ∈ run (f + 1) .eos [] := by
  simp [run]

/-- Fuel monotonicity for lookahead-free patterns: a result survives any
fuel increase. -/
theorem run_mono_succ :
    ∀ (f : Nat) (r : RE) (s : List Char) (res : List Char × Caps),
      nlaFree r = true → res ∈ run f r s → res ∈ run (f + 1) r s := by
  intro f
  induction f with
  | zero => intro r s res _ h; simp [run] at h
  | succ f ih =>
    intro r s res hfree h
    cases r with
    | eps => rw [mem_run_eps h]; exact eps_intro
    | chr c =>
      obtain ⟨cs, rfl, rfl⟩ := mem_run_chr h
      exact chr_intro
    | cls p =>
      obtain ⟨c, cs, rfl, hc, rfl⟩ := mem_run_cls h
      exact cls_intro hc
    | eos =>
      obtain ⟨rfl, rfl⟩ := mem_run_eos h
      exact eos_intro
    | cat a b =>
      obtain ⟨f', p, q, hf, hp, hq, rfl⟩ := mem_run_cat h
      obtain rfl : f' = f := by omega
      simp only [nlaFree, Bool.and_eq_true] at hfree
      exact cat_intro (ih a s p hfree.1 hp) (ih b p.1 q hfree.2 hq)
    | alt a b =>
      obtain ⟨f', hf, hab⟩ := mem_run_alt h
      obtain rfl : f' = f := by omega
      simp only [nlaFree, Bool.and_eq_true] at hfree
      rcases hab with hl | hr
      · exact alt_intro_left (ih a s res hfree.1 hl)
      · exact alt_intro_right (ih b s res hfree.2 hr)
    | star a g =>
      obtain ⟨f', hf, hc⟩ := mem_run_star h
      obtain rfl : f' = f := by omega
      simp only [nlaFree] at hfree
      rcases hc with rfl | ⟨p, q, hp, hl, hq, rfl⟩
      · exact star_intro_skip
      · exact star_intro_cons (ih a s p hfree hp) hl
          (ih (.star a g) p.1 q (by simpa [nlaFree] using hfree) hq)
    | opt a g =>
      obtain ⟨f', hf, hc⟩ := mem_run_opt h
      obtain rfl : f' = f := by omega
      simp only [nlaFree] at hfree
      rcases hc with rfl | hc
      · exact opt_intro_skip
      · exact opt_intro_some (ih a s res hfree hc)
    | grp n a =>
      obtain ⟨f', p, hf, hp, rfl⟩ := mem_run_grp h
      obtain rfl : f' = f := by omega
      simp only [nlaFree] at hfree
      exact grp_intro (ih a s p hfree hp)
    | nla a => simp [nlaFree] at hfree

/-- Fuel monotonicity, `≤` form. -/
theorem run_mono_le {f f' : Nat} {r : RE} {s : List Char}
    {res : List Char × Caps} (hfree : nlaFree r = true) (hle : f ≤ f')
    (h : res ∈ run f r s) : res ∈ run f' r s := by
  induction f' with
  | zero =>
    obtain rfl : f = 0 := Nat.le_zero.mp hle
    exact h
  | succ f' ih =>
    rcases Nat.lt_or_ge f (f' + 1) with hlt | hge
    · exact run_mono_succ f' r s res hfree (ih (Nat.lt_succ_iff.mp hlt))
    · obtain rfl : f = f' + 1 := Nat.le_antisymm hle hge
      exact h

/-! ## Soundness facts about match results -/

/-- Every captured group name comes from the pattern. -/
theorem run_names_sound :
    ∀ (f : Nat) (r : RE) (s : List Char) (res : List Char × Caps),
      res ∈ run f r s → ∀ n v, (n, v) ∈ res.2 → n ∈ groupNames r := by
  intro f
  induction f with
  | zero => intro r s res h; simp [run] at h
  | succ f ih =>
    intro r s res h n v hm
    cases r with
    | eps => rw [mem_run_eps h] at hm; simp at hm
    | chr c =>
      obtain ⟨cs, rfl, rfl⟩ := mem_run_chr h
      simp at hm
    | cls p =>
      obtain ⟨c, cs, rfl, hc, rfl⟩ := mem_run_cls h
      simp at hm
    | eos =>
      obtain ⟨rfl, rfl⟩ := mem_run_eos h
      simp at hm
    | nla a => rw [mem_run_nla h] at hm; simp at hm
    | cat a b =>
      obtain ⟨f', p, q, hf, hp, hq, rfl⟩ := mem_run_cat h
      obtain rfl : f' = f := by omega
      simp only [groupNames, List.mem_append]
      rcases List.mem_append.mp hm with hmq | hmp
      · exact Or.inr (ih b p.1 q hq n v hmq)
      · exact Or.inl (ih a s p hp n v hmp)
    | alt a b =>
      obtain ⟨f', hf, hab⟩ := mem_run_alt h
      obtain rfl : f' = f := by omega
      simp only [groupNames, List.mem_append]
      rcases hab with hl | hr
      · exact Or.inl (ih a s res hl n v hm)
      · exact Or.inr (ih b s res hr n v hm)
    | star a g =>
      obtain ⟨f', hf, hc⟩ := mem_run_star h
      obtain rfl : f' = f := by omega
      rcases hc with rfl | ⟨p, q, hp, hl, hq, rfl⟩
      · simp at hm
      · simp only [groupNames]
        rcases List.mem_append.mp hm with hmq | hmp
        · have := ih (.star a g) p.1 q hq n v hmq
          simpa [groupNames] using this
        · exact ih a s p hp n v hmp
    | opt a g =>
      obtain ⟨f', hf, hc⟩ := mem_run_opt h
      obtain rfl : f' = f := by omega
      rcases hc with rfl | hc
      · simp at hm
      · simpa [groupNames] using ih a s res hc n v hm
    | grp m a =>
      obtain ⟨f', p, hf, hp, rfl⟩ := mem_run_grp h
      obtain rfl : f' = f := by omega
      simp only [groupNames, List.mem_cons]
      rcases List.mem_cons.mp hm with hm | hm
      · exact Or.inl (congrArg Prod.fst hm)
      · exact Or.inr (ih a s p hp n v hm)

/-- Every required group name is bound in every match result. -/
theorem run_names_required :
    ∀ (f : Nat) (r : RE) (s : List Char) (res : List Char × Caps),
      res ∈ run f r s → ∀ n, n ∈ requiredNames r → ∃ v, (n, v) ∈ res.2 := by
  intro f
  induction f with
  | zero => intro r s res h; simp [run] at h
  | succ f ih =>
    intro r s res h n hn
    cases r with
    | eps => simp [requiredNames] at hn
    | chr c => simp [requiredNames] at hn
    | cls p => simp [requiredNames] at hn
    | eos => simp [requiredNames] at hn
    | nla a => simp [requiredNames] at hn
    | star a g => simp [requiredNames] at hn
    | opt a g => simp [requiredNames] at hn
    | cat a b =>
      obtain ⟨f', p, q, hf, hp, hq, rfl⟩ := mem_run_cat h
      obtain rfl : f' = f := by omega
      simp only [requiredNames, List.mem_append] at hn
      rcases hn with hn | hn
      · obtain ⟨v, hv⟩ := ih a s p hp n hn
        exact ⟨v, List.mem_append_right _ hv⟩
      · obtain ⟨v, hv⟩ := ih b p.1 q hq n hn
        exact ⟨v, List.mem_append_left _ hv⟩
    | alt a b =>
      obtain ⟨f', hf, hab⟩ := mem_run_alt h
      obtain rfl : f' = f := by omega
      simp only [requiredNames] at hn
      rcases hab with hl | hr
      · exact ih a s res hl n (List.mem_of_mem_inter_left hn)
      · exact ih b s res hr n (List.mem_of_mem_inter_right hn)
    | grp m a =>
      obtain ⟨f', p, hf, hp, rfl⟩ := mem_run_grp h
      obtain rfl : f' = f := by omega
      simp only [requiredNames, List.mem_cons] at hn
      rcases hn with rfl | hn
      · exact ⟨consumedStr s p.1, List.mem_cons_self _ _⟩
      · obtain ⟨v, hv⟩ := ih a s p hp n hn
        exact ⟨v, List.mem_cons_of_mem _ hv⟩

/-- A match never lengthens the input. -/
theorem run_length_le :
    ∀ (f : Nat) (r : RE) (s : List Char) (res : List Char × Caps),
      res ∈ run f r s → res.1.length ≤ s.length := by
  intro f
  induction f with
  | zero => intro r s res h; simp [run] at h
  | succ f ih =>
    intro r s res h
    cases r with
    | eps => rw [mem_run_eps h]
    | chr c =>
      obtain ⟨cs, rfl, rfl⟩ := mem_run_chr h
      simp
    | cls p =>
      obtain ⟨c, cs, rfl, hc, rfl⟩ := mem_run_cls h
      simp
    | eos => rw [(mem_run_eos h).1]
    | nla a => rw [mem_run_nla h]
    | cat a b =>
      obtain ⟨f', p, q, hf, hp, hq, rfl⟩ := mem_run_cat h
      obtain rfl : f' = f := by omega
      exact le_trans (ih b p.1 q hq) (ih a s p hp)
    | alt a b =>
      obtain ⟨f', hf, hab⟩ := mem_run_alt h
      obtain rfl : f' = f := by omega
      rcases hab with hl | hr
      · exact ih a s res hl
      · exact ih b s res hr
    | star a g =>
      obtain ⟨f', hf, hc⟩ := mem_run_star h
      obtain rfl : f' = f := by omega
      rcases hc with rfl | ⟨p, q, hp, hl, hq, rfl⟩
      · exact le_refl _
      · exact le_trans (ih (.star a g) p.1 q hq) (le_of_lt hl)
    | opt a g =>
      obtain ⟨f', hf, hc⟩ := mem_run_opt h
      obtain rfl : f' = f := by omega
      rcases hc with rfl | hc
      · exact le_refl _
      · exact ih a s res hc
    | grp m a =>
      obtain ⟨f', p, hf, hp, rfl⟩ := mem_run_grp h
      obtain rfl : f' = f := by omega
      exact ih a s p hp

/-- A consuming pattern strictly shortens the input on every match. -/
theorem run_consumes_lt :
    ∀ (f : Nat) (r : RE) (s : List Char) (res : List Char × Caps),
      consumes r = true → res ∈ run f r s → res.1.length < s.length := by
  intro f
  induction f with
  | zero => intro r s res _ h; simp [run] at h
  | succ f ih =>
    intro r s res hcons h
    cases r with
    | eps => simp [consumes] at hcons
    | eos => simp [consumes] at hcons
    | nla a => simp [consumes] at hcons
    | star a g => simp [consumes] at hcons
    | opt a g => simp [consumes] at hcons
    | chr c =>
      obtain ⟨cs, rfl, rfl⟩ := mem_run_chr h
      simp
    | cls p =>
      obtain ⟨c, cs, rfl, hc, rfl⟩ := mem_run_cls h
      simp
    | cat a b =>
      obtain ⟨f', p, q, hf, hp, hq, rfl⟩ := mem_run_cat h
      obtain rfl : f' = f := by omega
      simp only [consumes, Bool.or_eq_true] at hcons
      rcases hcons with hc | hc
      · exact lt_of_le_of_lt (run_length_le _ b p.1 q hq) (ih a s p hc hp)
      · exact lt_of_lt_of_le (ih b p.1 q hc hq) (run_length_le _ a s p hp)
    | alt a b =>
      obtain ⟨f', hf, hab⟩ := mem_run_alt h
      obtain rfl : f' = f := by omega
      simp only [consumes, Bool.and_eq_true] at hcons
      rcases hab with hl | hr
      · exact ih a s res hcons.1 hl
      · exact ih b s res hcons.2 hr
    | grp m a =>
      obtain ⟨f', p, hf, hp, rfl⟩ := mem_run_grp h
      obtain rfl : f' = f := by omega
      exact ih a s p (by simpa [consumes] using hcons) hp

theorem string_mk_ne_empty {l : List Char} (h : l ≠ []) : String.mk l ≠ "" := by
  intro he
  exact h (congrArg String.data he)

theorem consumedStr_ne_empty {s rest : List Char} (h : rest.length < s.length) :
    consumedStr s rest ≠ "" := by
  apply string_mk_ne_empty
  have hlen : (s.take (s.length - rest.length)).length = s.length - rest.length := by
    rw [List.length_take]
    omega
  intro he
  rw [he] at hlen
  simp at hlen
  omega

/-- Captures of groups with consuming bodies are never empty. -/
theorem run_goodGrp_ne_empty :
    ∀ (f : Nat) (nm : String) (r : RE) (s : List Char) (res : List Char × Caps),
      goodGrp nm r = true → res ∈ run f r s →
      ∀ v, (nm, v) ∈ res.2 → v ≠ "" := by
  intro f
  induction f with
  | zero => intro nm r s res _ h; simp [run] at h
  | succ f ih =>
    intro nm r s res hgood h v hm
    cases r with
    | eps => rw [mem_run_eps h] at hm; simp at hm
    | chr c =>
      obtain ⟨cs, rfl, rfl⟩ := mem_run_chr h
      simp at hm
    | cls p =>
      obtain ⟨c, cs, rfl, hc, rfl⟩ := mem_run_cls h
      simp at hm
    | eos =>
      obtain ⟨rfl, rfl⟩ := mem_run_eos h
      simp at hm
    | nla a => rw [mem_run_nla h] at hm; simp at hm
    | cat a b =>
      obtain ⟨f', p, q, hf, hp, hq, rfl⟩ := mem_run_cat h
      obtain rfl : f' = f := by omega
      simp only [goodGrp, Bool.and_eq_true] at hgood
      rcases List.mem_append.mp hm with hmq | hmp
      · exact ih nm b p.1 q hgood.2 hq v hmq
      · exact ih nm a s p hgood.1 hp v hmp
    | alt a b =>
      obtain ⟨f', hf, hab⟩ := mem_run_alt h
      obtain rfl : f' = f := by omega
      simp only [goodGrp, Bool.and_eq_true] at hgood
      rcases hab with hl | hr
      · exact ih nm a s res hgood.1 hl v hm
      · exact ih nm b s res hgood.2 hr v hm
    | star a g =>
      obtain ⟨f', hf, hc⟩ := mem_run_star h
      obtain rfl : f' = f := by omega
      rcases hc with rfl | ⟨p, q, hp, hl, hq, rfl⟩
      · simp at hm
      · simp only [goodGrp] at hgood
        rcases List.mem_append.mp hm with hmq | hmp
        · exact ih nm (.star a g) p.1 q (by simpa [goodGrp] using hgood) hq v hmq
        · exact ih nm a s p hgood hp v hmp
    | opt a g =>
      obtain ⟨f', hf, hc⟩ := mem_run_opt h
      obtain rfl : f' = f := by omega
      rcases hc with rfl | hc
      · simp at hm
      · exact ih nm a s res (by simpa [goodGrp] using hgood) hc v hm
    | grp m a =>
      obtain ⟨f', p, hf, hp, rfl⟩ := mem_run_grp h
      obtain rfl : f' = f := by omega
      simp only [goodGrp, Bool.and_eq_true] at hgood
      rcases List.mem_cons.mp hm with hm | hm
      · obtain ⟨rfl, rfl⟩ : m = nm ∧ v = consumedStr s p.1 := by
          exact ⟨(congrArg Prod.fst hm).symm, congrArg Prod.snd hm⟩
        have hcons : consumes a = true := by
          have := hgood.1
          rw [if_pos rfl] at this
          exact this
        exact consumedStr_ne_empty (run_consumes_lt _ a s p hcons hp)
      · exact ih nm a s p hgood.2 hp v hm

/-- The consumed part of a match only contains characters the pattern's
character tests accept. -/
theorem run_charBound :
    ∀ (f : Nat) (Q : Char → Bool) (r : RE) (s : List Char)
      (res : List Char × Caps), charBound Q r → res ∈ run f r s →
      ∃ u, s = u ++ res.1 ∧ u.all Q = true := by
  intro f
  induction f with
  | zero => intro Q r s res _ h; simp [run] at h
  | succ f ih =>
    intro Q r s res hb h
    cases r with
    | eps => rw [mem_run_eps h]; exact ⟨[], rfl, rfl⟩
    | eos => rw [(mem_run_eos h).1]; exact ⟨[], rfl, rfl⟩
    | nla a => rw [mem_run_nla h]; exact ⟨[], rfl, rfl⟩
    | chr c =>
      obtain ⟨cs, rfl, rfl⟩ := mem_run_chr h
      exact ⟨[c], rfl, by simpa [List.all_cons] using hb⟩
    | cls p =>
      obtain ⟨c, cs, rfl, hc, rfl⟩ := mem_run_cls h
      exact ⟨[c], rfl, by simpa [List.all_cons] using hb c hc⟩
    | cat a b =>
      obtain ⟨f', p, q, hf, hp, hq, rfl⟩ := mem_run_cat h
      obtain rfl : f' = f := by omega
      obtain ⟨u₁, hu₁, ha₁⟩ := ih Q a s p hb.1 hp
      obtain ⟨u₂, hu₂, ha₂⟩ := ih Q b p.1 q hb.2 hq
      refine ⟨u₁ ++ u₂, ?_, ?_⟩
      · rw [hu₁, hu₂, List.append_assoc]
      · simp [List.all_append, ha₁, ha₂]
    | alt a b =>
      obtain ⟨f', hf, hab⟩ := mem_run_alt h
      obtain rfl : f' = f := by omega
      rcases hab with hl | hr
      · exact ih Q a s res hb.1 hl
      · exact ih Q b s res hb.2 hr
    | star a g =>
      obtain ⟨f', hf, hc⟩ := mem_run_star h
      obtain rfl : f' = f := by omega
      rcases hc with rfl | ⟨p, q, hp, hl, hq, rfl⟩
      · exact ⟨[], rfl, rfl⟩
      · obtain ⟨u₁, hu₁, ha₁⟩ := ih Q a s p hb hp
        obtain ⟨u₂, hu₂, ha₂⟩ := ih Q (.star a g) p.1 q (by simpa [charBound] using hb) hq
        refine ⟨u₁ ++ u₂, ?_, ?_⟩
        · rw [hu₁, hu₂, List.append_assoc]
        · simp [List.all_append, ha₁, ha₂]
    | opt a g =>
      obtain ⟨f', hf, hc⟩ := mem_run_opt h
      obtain rfl : f' = f := by omega
      rcases hc with rfl | hc
      · exact ⟨[], rfl, rfl⟩
      · exact ih Q a s res (by simpa [charBound] using hb) hc
    | grp m a =>
      obtain ⟨f', p, hf, hp, rfl⟩ := mem_run_grp h
      obtain rfl : f' = f := by omega
      exact ih Q a s p (by simpa [charBound] using hb) hp

/-! ## Head-of-result computations for specific patterns -/

theorem run_star_any_head :
    ∀ (cs : List Char) (f : Nat), (∀ x ∈ cs, x ≠ '\n') → cs.length + 2 ≤ f →
      ∃ t, run f (.star anyc true) cs = ([], []) :: t := by
  intro cs
  induction cs with
  | nil =>
    intro f _ hf
    obtain ⟨f', rfl⟩ : ∃ f', f = f' + 2 := ⟨f - 2, by omega⟩
    refine ⟨[], ?_⟩
    show run ((f' + 1) + 1) (.star anyc true) [] = _
    simp [run, anyc]
  | cons x xs ih =>
    intro f hx hf
    obtain ⟨f', rfl⟩ : ∃ f', f = f' + 1 := ⟨f - 1, by omega⟩
    have hf' : xs.length + 2 ≤ f' := by
      simp only [List.length_cons] at hf
      omega
    obtain ⟨t₀, ht₀⟩ := ih f' (fun c hc => hx c (List.mem_cons_of_mem _ hc)) hf'
    have hrun : run f' anyc (x :: xs) = [(xs, [])] := by
      obtain ⟨f'', rfl⟩ : ∃ f'', f' = f'' + 1 := ⟨f' - 1, by omega⟩
      have hb : (x != '\n') = true := by
        simp only [bne_iff_ne, ne_eq]
        exact hx x (List.mem_cons_self _ _)
      simp [run, anyc, hb]
    refine ⟨(t₀.map fun q => (q.1, q.2 ++ [])) ++ [(x :: xs, [])], ?_⟩
    rw [star_run_eq]
    simp only [hrun, List.flatMap_cons, List.flatMap_nil, List.append_nil,
      if_pos rfl]
    rw [if_pos (by simp : (xs.length < (x :: xs).length))]
    rw [ht₀]
    simp


theorem run_lit_head_ne {f : Nat} {c c' : Char} {l cs : List Char}
    (h : c ≠ c') : run f (litRE (c' :: l)) (c :: cs) = [] := by
  rcases f with _ | f
  · simp [run]
  · rcases f with _ | f
    · simp [run, litRE]
    · simp [run, litRE, h]

theorem run_not_evaluated_nil {f : Nat} {c : Char} {cs : List Char}
    (hc : (c == 'z' || c == 'Z' || c == '_') = false) :
    run f not_evaluated_re (c :: cs) = [] := by
  rcases f with _ | f
  · simp [run]
  · rcases f with _ | f
    · simp [run, not_evaluated_re]
    · rcases f with _ | f
      · simp [run, not_evaluated_re]
      · simp [run, not_evaluated_re, hc]

theorem grp_run_eq (f : Nat) (n : String) (a : RE) (s : List Char) :
    run (f + 1) (.grp n a) s =
      (run f a s).map (fun p => (p.1, (n, consumedStr s p.1) :: p.2)) := rfl

theorem cat_run_eq (f : Nat) (a b : RE) (s : List Char) :
    run (f + 1) (.cat a b) s =
      (run f a s).flatMap (fun p =>
        (run f b p.1).map (fun q => (q.1, q.2 ++ p.2))) := rfl

theorem alt_run_eq (f : Nat) (a b : RE) (s : List Char) :
    run (f + 1) (.alt a b) s = run f a s ++ run f b s := rfl

theorem opt_run_eq_true (f : Nat) (a : RE) (s : List Char) :
    run (f + 1) (.opt a true) s = run f a s ++ [(s, [])] := rfl

theorem run_not_evaluated_head {f : Nat} {c : Char} {cs : List Char}
    (hc : (c == 'z' || c == 'Z' || c == '_') = true)
    (hn : ∀ x ∈ cs, x ≠ '\n') (hf : cs.length + 4 ≤ f) :
    ∃ t, run f not_evaluated_re (c :: cs) =
      ([], [("NotEvaluated", String.mk cs), ("NotEvalChar", String.mk [c])]) :: t := by
  obtain ⟨f', rfl⟩ : ∃ f', f = f' + 4 := ⟨f - 4, by omega⟩
  have h1 : run (f' + 3) (.grp "NotEvalChar"
      (.cls (fun c => c == 'z' || c == 'Z' || c == '_'))) (c :: cs) =
      [(cs, [("NotEvalChar", String.mk [c])])] := by
    have hcons : consumedStr (c :: cs) cs = String.mk [c] := by
      simp [consumedStr, Nat.succ_sub, Nat.sub_self]
    show run ((f' + 2) + 1) _ _ = _
    rw [grp_run_eq]
    rw [show f' + 2 = (f' + 1) + 1 from rfl]
    simp [run, hc, hcons]
  obtain ⟨t0, ht0⟩ := run_star_any_head cs (f' + 2) hn (by omega)
  have h2 : run (f' + 3) (.grp "NotEvaluated" dotStar) cs =
      ([], [("NotEvaluated", String.mk cs)]) ::
        (t0.map fun p => (p.1, ("NotEvaluated", consumedStr cs p.1) :: p.2)) := by
    have hcons : consumedStr cs ([] : List Char) = String.mk cs := by
      simp [consumedStr]
    show run ((f' + 2) + 1) _ _ = _
    rw [grp_run_eq, dotStar, ht0]
    simp [hcons]
  refine ⟨?_, ?_⟩
  · exact (t0.map fun p => (p.1, ("NotEvaluated", consumedStr cs p.1) :: p.2)).map
      fun q => (q.1, q.2 ++ [("NotEvalChar", String.mk [c])])
  · show run ((f' + 3) + 1) (.cat _ _) (c :: cs) = _
    rw [cat_run_eq, h1, List.flatMap_cons, List.flatMap_nil, List.append_nil, h2]
    rfl

/-! ## Facts about the top-level classifier -/

theorem classify_inv {s : String} {caps : Caps} (h : classify s = some caps) :
    ∃ res, res ∈ run (fuelFor s) all_structure_re s.data ∧ res.1 = [] ∧
      res.2 = caps := by
  unfold classify pyfullmatch at h
  obtain ⟨res, hfind, hmap⟩ := Option.map_eq_some'.mp h
  refine ⟨res, List.mem_of_find?_eq_some hfind, ?_, hmap⟩
  have := List.find?_some hfind
  simpa using this

theorem lookup_none_of_branch {f : Nat} {r : RE} {s : List Char}
    {res : List Char × Caps} (h : res ∈ run f r s) {n : String}
    (hn : n ∉ groupNames r) : res.2.lookup n = none := by
  rw [lookup_eq_none_iff]
  intro v hv
  exact hn (run_names_sound f r s res h n v hv)

theorem lookup_isSome_of_required {f : Nat} {r : RE} {s : List Char}
    {res : List Char × Caps} (h : res ∈ run f r s) {n : String}
    (hn : n ∈ requiredNames r) : (res.2.lookup n).isSome := by
  obtain ⟨v, hv⟩ := run_names_required f r s res h n hn
  exact lookup_isSome_of_mem hv

/-- Claim C4: a non-empty structure name is identified as NotEvaluated
exactly when its first character is `z`, `Z` or `_`, and in that case the
whole match result is the opaque remainder after the prefix character —
no other group (in particular not `StructureName`, the gate of the
reduction pipeline) is bound.  Names are single-line labels, so the
newline hypothesis is vacuous on the source's domain. -/
theorem claim_C4_not_evaluated_prefix (c : Char) (cs : List Char)
    (hn : ∀ x ∈ c :: cs, x ≠ '\n') :
    (isNotEvaluated (String.mk (c :: cs)) = true ↔ (c = 'z' ∨ c = 'Z' ∨ c = '_')) ∧
    ((c = 'z' ∨ c = 'Z' ∨ c = '_') →
      classify (String.mk (c :: cs)) =
        some [("NotEvaluated", String.mk cs), ("NotEvalChar", String.mk [c])]) := by
  have hdata : (String.mk (c :: cs)).data = c :: cs := rfl
  obtain ⟨F, hF, hFle⟩ : ∃ F, fuelFor (String.mk (c :: cs)) = F + 1 ∧
      cs.length + 4 ≤ F := by
    refine ⟨fuelFor (String.mk (c :: cs)) - 1, ?_, ?_⟩ <;>
      simp only [fuelFor, String.length, List.length_cons] <;> omega
  have hcls : (c = 'z' ∨ c = 'Z' ∨ c = '_') →
      classify (String.mk (c :: cs)) =
        some [("NotEvaluated", String.mk cs), ("NotEvalChar", String.mk [c])] := by
    intro hc
    have hc' : (c == 'z' || c == 'Z' || c == '_') = true := by
      rcases hc with rfl | rfl | rfl <;> simp
    unfold classify pyfullmatch all_structure_re
    rw [hdata, hF, alt_run_eq]
    obtain ⟨t, ht⟩ := run_not_evaluated_head hc'
      (fun x hx => hn x (List.mem_cons_of_mem _ hx)) hFle
    rw [ht, List.cons_append]
    rw [List.find?_cons_of_pos _ (by simp)]
    rfl
  refine ⟨?_, hcls⟩
  constructor
  · intro h
    by_contra hne
    have hc' : (c == 'z' || c == 'Z' || c == '_') = false := by
      push_neg at hne
      simp [hne.1, hne.2.1, hne.2.2]
    unfold isNotEvaluated at h
    rcases hcl : classify (String.mk (c :: cs)) with _ | caps
    · rw [hcl] at h
      simp at h
    · rw [hcl] at h
      simp only [Option.some_bind] at h
      obtain ⟨res, hres, hemp, rfl⟩ := classify_inv hcl
      rw [hdata] at hres
      unfold all_structure_re at hres
      obtain ⟨f₁, hf₁, hres⟩ := mem_run_alt hres
      rcases hres with hne' | hres
      · rw [run_not_evaluated_nil hc'] at hne'
        simp at hne'
      · have hnone : res.2.lookup "NotEvalChar" = none :=
          lookup_none_of_branch hres (by decide)
        rw [hnone] at h
        simp at h
  · intro hc
    rw [isNotEvaluated, hcls hc]
    have hne : ("NotEvalChar" : String) ≠ "NotEvaluated" := by decide
    simp only [Option.some_bind, lookup_cons_ne _ _ hne, lookup_cons_self,
      Option.isSome_some]

/-! ## Fuel independence and the Target priority argument -/

theorem sizeRE_pos : ∀ r : RE, 1 ≤ sizeRE r := by
  intro r
  cases r <;> simp [sizeRE]

theorem flatMap_congr_mem {α β : Type} {l : List α} {f g : α → List β}
    (h : ∀ a ∈ l, f a = g a) : l.flatMap f = l.flatMap g := by
  induction l with
  | nil => rfl
  | cons x xs ih =>
    simp only [List.flatMap_cons]
    rw [h x (List.mem_cons_self _ _), ih (fun a ha => h a (List.mem_cons_of_mem _ ha))]

theorem opt_run_eq_false (f : Nat) (a : RE) (s : List Char) :
    run (f + 1) (.opt a false) s = (s, []) :: run f a s := rfl

theorem nla_run_eq (f : Nat) (a : RE) (s : List Char) :
    run (f + 1) (.nla a) s = if (run f a s).isEmpty then [(s, [])] else [] := rfl

theorem star_run_unfold (f : Nat) (a : RE) (g : Bool) (s : List Char) :
    run (f + 1) (.star a g) s =
      if g then
        ((run f a s).flatMap (fun p =>
          if p.1.length < s.length then
            (run f (.star a g) p.1).map (fun q => (q.1, q.2 ++ p.2))
          else [])) ++ [(s, [])]
      else
        (s, []) :: ((run f a s).flatMap (fun p =>
          if p.1.length < s.length then
            (run f (.star a g) p.1).map (fun q => (q.1, q.2 ++ p.2))
          else [])) := rfl

theorem run_fuel_indep :
    ∀ (f f' : Nat) (r : RE) (s : List Char),
      sizeRE r + s.length < f → sizeRE r + s.length < f' →
      run f r s = run f' r s := by
  intro f
  induction f using Nat.strong_induction_on with
  | _ f ih =>
    intro f' r s hb hb'
    obtain ⟨f₁, rfl⟩ : ∃ f₁, f = f₁ + 1 := ⟨f - 1, by omega⟩
    obtain ⟨f₁', rfl⟩ : ∃ f₁', f' = f₁' + 1 := ⟨f' - 1, by omega⟩
    cases r with
    | eps => rfl
    | chr c => rfl
    | cls p => rfl
    | eos => rfl
    | grp n a =>
      simp only [sizeRE] at hb hb'
      rw [grp_run_eq, grp_run_eq,
        ih f₁ (by omega) f₁' a s (by omega) (by omega)]
    | alt a b =>
      have hpa := sizeRE_pos a
      have hpb := sizeRE_pos b
      simp only [sizeRE] at hb hb'
      rw [alt_run_eq, alt_run_eq,
        ih f₁ (by omega) f₁' a s (by omega) (by omega),
        ih f₁ (by omega) f₁' b s (by omega) (by omega)]
    | nla a =>
      simp only [sizeRE] at hb hb'
      rw [nla_run_eq, nla_run_eq,
        ih f₁ (by omega) f₁' a s (by omega) (by omega)]
    | opt a g =>
      simp only [sizeRE] at hb hb'
      cases g
      · rw [opt_run_eq_false, opt_run_eq_false,
          ih f₁ (by omega) f₁' a s (by omega) (by omega)]
      · rw [opt_run_eq_true, opt_run_eq_true,
          ih f₁ (by omega) f₁' a s (by omega) (by omega)]
    | cat a b =>
      have hpa := sizeRE_pos a
      have hpb := sizeRE_pos b
      simp only [sizeRE] at hb hb'
      rw [cat_run_eq, cat_run_eq,
        ih f₁ (by omega) f₁' a s (by omega) (by omega)]
      apply flatMap_congr_mem
      intro p hp
      have hle := run_length_le f₁' a s p hp
      rw [ih f₁ (by omega) f₁' b p.1 (by omega) (by omega)]
    | star a g =>
      have hpa := sizeRE_pos a
      simp only [sizeRE] at hb hb'
      have hcont : (run f₁ a s).flatMap (fun p =>
          if p.1.length < s.length then
            (run f₁ (.star a g) p.1).map (fun q => (q.1, q.2 ++ p.2))
          else []) = (run f₁' a s).flatMap (fun p =>
          if p.1.length < s.length then
            (run f₁' (.star a g) p.1).map (fun q => (q.1, q.2 ++ p.2))
          else []) := by
        rw [ih f₁ (by omega) f₁' a s (by omega) (by omega)]
        apply flatMap_congr_mem
        intro p hp
        by_cases hl : p.1.length < s.length
        · rw [if_pos hl, if_pos hl,
            ih f₁ (by omega) f₁' (.star a g) p.1
              (by simp only [sizeRE]; omega) (by simp only [sizeRE]; omega)]
        · rw [if_neg hl, if_neg hl]
      rw [star_run_unfold, star_run_unfold, hcont]

theorem mem_run_lit_head {f : Nat} {c₀ : Char} {l s : List Char}
    {res : List Char × Caps} (h : res ∈ run f (litRE (c₀ :: l)) s) :
    ∃ cs, s = c₀ :: cs := by
  have h' : res ∈ run f (.cat (.chr c₀) (litRE l)) s := h
  obtain ⟨f1, p, q, _, hp, _, _⟩ := mem_run_cat h'
  obtain ⟨cs, hcs, _⟩ := mem_run_chr hp
  exact ⟨cs, hcs⟩

theorem target_head {f : Nat} {s : List Char} {res : List Char × Caps}
    (h : res ∈ run f target_re s) :
    ∃ c cs, s = c :: cs ∧ (c == 'z' || c == 'Z' || c == '_') = false := by
  have h0 : res ∈ run f (.cat base_target_re (.cat modality_re
      (.cat struct_ind_re (.cat dose_specifier_re
        (.cat external_crop_re target_custom_qualifier_re))))) s := h
  obtain ⟨f1, p1, q1, _, hp1, _, _⟩ := mem_run_cat h0
  have hp1' : p1 ∈ run f1 (.grp "BaseTarget"
      (.cat (.grp "TargetType" target_type_re)
        (.cat (.opt (.grp "TargetClassifier" target_classifier_re) true)
          (.opt (.grp "TargetNumber" target_number_re) true)))) s := hp1
  obtain ⟨f2, p2, _, hp2, _⟩ := mem_run_grp hp1'
  obtain ⟨f3, p3, q3, _, hp3, _, _⟩ := mem_run_cat hp2
  obtain ⟨f4, p4, _, hp4, _⟩ := mem_run_grp hp3
  have hp4' : p4 ∈ run f4 (.alt (litRE ('G' :: "TV".data))
      (.alt (litRE ('C' :: "TV".data))
        (.alt (litRE ('P' :: "TV".data))
          (.alt (litRE ('I' :: "TV".data))
            (.alt (litRE ('I' :: "GTV".data))
              (.alt (litRE ('I' :: "CTV".data))
                (litRE ('P' :: "TV!".data)))))))) s := hp4
  obtain ⟨f5, _, h5⟩ := mem_run_alt hp4'
  rcases h5 with h5 | h5
  · obtain ⟨cs, hcs⟩ := mem_run_lit_head h5
    exact ⟨'G', cs, hcs, by decide⟩
  obtain ⟨f6, _, h6⟩ := mem_run_alt h5
  rcases h6 with h6 | h6
  · obtain ⟨cs, hcs⟩ := mem_run_lit_head h6
    exact ⟨'C', cs, hcs, by decide⟩
  obtain ⟨f7, _, h7⟩ := mem_run_alt h6
  rcases h7 with h7 | h7
  · obtain ⟨cs, hcs⟩ := mem_run_lit_head h7
    exact ⟨'P', cs, hcs, by decide⟩
  obtain ⟨f8, _, h8⟩ := mem_run_alt h7
  rcases h8 with h8 | h8
  · obtain ⟨cs, hcs⟩ := mem_run_lit_head h8
    exact ⟨'I', cs, hcs, by decide⟩
  obtain ⟨f9, _, h9⟩ := mem_run_alt h8
  rcases h9 with h9 | h9
  · obtain ⟨cs, hcs⟩ := mem_run_lit_head h9
    exact ⟨'I', cs, hcs, by decide⟩
  obtain ⟨f10, _, h10⟩ := mem_run_alt h9
  rcases h10 with h10 | h10
  · obtain ⟨cs, hcs⟩ := mem_run_lit_head h10
    exact ⟨'I', cs, hcs, by decide⟩
  · obtain ⟨cs, hcs⟩ := mem_run_lit_head h10
    exact ⟨'P', cs, hcs, by decide⟩

/-- Priority of the Target alternative over BasicOAR, universally: any
name the Target grammar fully matches in isolation (it therefore starts
with `G`, `C`, `P` or `I`, so the NotEvaluated alternative produces
nothing) is classified with its `BaseTarget` group bound and its
`StructureName` group unbound — the BasicOAR alternative, listed later,
never gets the name.  The BasicOAR-match hypothesis is carried to mirror
the claim's wording; the priority argument does not need it. -/
theorem target_priority_universal (s : String)
    (ht : (pyfullmatch target_re s).isSome)
    (_hbm : (pyfullmatch basic_structure_re s).isSome) :
    ∃ caps, classify s = some caps ∧ (caps.lookup "BaseTarget").isSome ∧
      caps.lookup "StructureName" = none := by
  obtain ⟨x₀, hx₀⟩ : ∃ x₀, (run (fuelFor s) target_re s.data).find?
      (fun p => p.1.isEmpty) = some x₀ := by
    unfold pyfullmatch at ht
    rcases hfd : (run (fuelFor s) target_re s.data).find?
        (fun p => p.1.isEmpty) with _ | x
    · rw [hfd] at ht
      simp at ht
    · exact ⟨x, hfd⟩
  have hmem₀ : x₀ ∈ run (fuelFor s) target_re s.data :=
    List.mem_of_find?_eq_some hx₀
  have hemp₀ : x₀.1 = [] := by
    have := List.find?_some hx₀
    simpa using this
  obtain ⟨c, cs, hscs, hcne⟩ := target_head hmem₀
  obtain ⟨F₂, hF⟩ : ∃ F₂, fuelFor s = F₂ + 2 :=
    ⟨fuelFor s - 2, by simp only [fuelFor]; omega⟩
  have hlen : s.length = (c :: cs).length := by
    have : s.data.length = (c :: cs).length := by rw [hscs]
    exact this
  have hsz : sizeRE target_re = 370 := by decide
  have htrans : run (fuelFor s) target_re (c :: cs) =
      run F₂ target_re (c :: cs) := by
    apply run_fuel_indep
    · simp only [fuelFor, hsz, hlen]
      omega
    · have : F₂ = 200 * (s.length + 2) - 2 := by
        simp only [fuelFor] at hF
        omega
      rw [this]
      simp only [hsz, hlen]
      omega
  rw [hscs] at hmem₀
  rw [htrans] at hmem₀
  have hx₁some : ((run F₂ target_re (c :: cs)).find?
      (fun p => p.1.isEmpty)).isSome :=
    findFirst_isSome_of_mem hmem₀ (by simp [hemp₀])
  obtain ⟨x₁, hx₁⟩ := Option.isSome_iff_exists.mp hx₁some
  have hmem₁ : x₁ ∈ run F₂ target_re (c :: cs) :=
    List.mem_of_find?_eq_some hx₁
  have hclass : classify s = some x₁.2 := by
    unfold classify pyfullmatch all_structure_re
    rw [hscs, hF, show F₂ + 2 = (F₂ + 1) + 1 from rfl, alt_run_eq,
      run_not_evaluated_nil hcne, List.nil_append, alt_run_eq,
      findFirst_append_left hx₁]
    rfl
  refine ⟨x₁.2, hclass, ?_, ?_⟩
  · exact lookup_isSome_of_required hmem₁ (by decide)
  · exact lookup_none_of_branch hmem₁ (by decide)

/-! ## The claims -/

/-- Claim C1: every full match of the combined classifier pattern binds
exactly one of the four class-presence groups (with a non-empty capture);
and every name that fully matches both the Target grammar and the
BasicOAR grammar in isolation is assigned Target by the priority-ordered
combined pattern — its `BaseTarget` group is bound and its
`StructureName` group is not — with the name `GTV` as the concrete
instance. -/
theorem claim_C1_priority_exclusive :
    (∀ (s : String) (caps : Caps), classify s = some caps →
      (classKeys.countP (fun k => (caps.lookup k).isSome) = 1 ∧
       ∀ k ∈ classKeys, ∀ v, caps.lookup k = some v → v ≠ "")) ∧
    (∀ s : String, (pyfullmatch target_re s).isSome →
      (pyfullmatch basic_structure_re s).isSome →
      ∃ caps, classify s = some caps ∧ (caps.lookup "BaseTarget").isSome ∧
        caps.lookup "StructureName" = none) ∧
    (pyfullmatch target_re "GTV").isSome = true ∧
    (pyfullmatch basic_structure_re "GTV").isSome = true ∧
    ((classify "GTV").bind (fun caps => caps.lookup "BaseTarget")) = some "GTV" := by
  refine ⟨?_, target_priority_universal, by decide, by decide, by decide⟩
  intro s caps hcl
  obtain ⟨res, hres, hemp, rfl⟩ := classify_inv hcl
  unfold all_structure_re at hres
  obtain ⟨f₁, _, hres⟩ := mem_run_alt hres
  rcases hres with hb | hres
  · have hs : (res.2.lookup "NotEvalChar").isSome :=
      lookup_isSome_of_required hb (by decide)
    have h2 : res.2.lookup "BaseTarget" = none :=
      lookup_none_of_branch hb (by decide)
    have h3 : res.2.lookup "OARCrop" = none :=
      lookup_none_of_branch hb (by decide)
    have h4 : res.2.lookup "StructureName" = none :=
      lookup_none_of_branch hb (by decide)
    refine ⟨by simp [classKeys, List.countP_cons, hs, h2, h3, h4], ?_⟩
    intro k hk v hv
    fin_cases hk
    · exact run_goodGrp_ne_empty _ "NotEvalChar" _ _ _ (by decide) hb v
        (mem_of_lookup_eq_some hv)
    · rw [h2] at hv; exact absurd hv (by simp)
    · rw [h3] at hv; exact absurd hv (by simp)
    · rw [h4] at hv; exact absurd hv (by simp)
  obtain ⟨f₂, _, hres⟩ := mem_run_alt hres
  rcases hres with hb | hres
  · have hs : (res.2.lookup "BaseTarget").isSome :=
      lookup_isSome_of_required hb (by decide)
    have h2 : res.2.lookup "NotEvalChar" = none :=
      lookup_none_of_branch hb (by decide)
    have h3 : res.2.lookup "OARCrop" = none :=
      lookup_none_of_branch hb (by decide)
    have h4 : res.2.lookup "StructureName" = none :=
      lookup_none_of_branch hb (by decide)
    refine ⟨by simp [classKeys, List.countP_cons, hs, h2, h3, h4], ?_⟩
    intro k hk v hv
    fin_cases hk
    · rw [h2] at hv; exact absurd hv (by simp)
    · exact run_goodGrp_ne_empty _ "BaseTarget" _ _ _ (by decide) hb v
        (mem_of_lookup_eq_some hv)
    · rw [h3] at hv; exact absurd hv (by simp)
    · rw [h4] at hv; exact absurd hv (by simp)
  obtain ⟨f₃, _, hres⟩ := mem_run_alt hres
  rcases hres with hb | hb
  · have hs : (res.2.lookup "OARCrop").isSome :=
      lookup_isSome_of_required hb (by decide)
    have h2 : res.2.lookup "NotEvalChar" = none :=
      lookup_none_of_branch hb (by decide)
    have h3 : res.2.lookup "BaseTarget" = none :=
      lookup_none_of_branch hb (by decide)
    have h4 : res.2.lookup "StructureName" = none :=
      lookup_none_of_branch hb (by decide)
    refine ⟨by simp [classKeys, List.countP_cons, hs, h2, h3, h4], ?_⟩
    intro k hk v hv
    fin_cases hk
    · rw [h2] at hv; exact absurd hv (by simp)
    · rw [h3] at hv; exact absurd hv (by simp)
    · exact run_goodGrp_ne_empty _ "OARCrop" _ _ _ (by decide) hb v
        (mem_of_lookup_eq_some hv)
    · rw [h4] at hv; exact absurd hv (by simp)
  · have hs : (res.2.lookup "StructureName").isSome :=
      lookup_isSome_of_required hb (by decide)
    have h2 : res.2.lookup "NotEvalChar" = none :=
      lookup_none_of_branch hb (by decide)
    have h3 : res.2.lookup "BaseTarget" = none :=
      lookup_none_of_branch hb (by decide)
    have h4 : res.2.lookup "OARCrop" = none :=
      lookup_none_of_branch hb (by decide)
    refine ⟨by simp [classKeys, List.countP_cons, hs, h2, h3, h4], ?_⟩
    intro k hk v hv
    fin_cases hk
    · rw [h2] at hv; exact absurd hv (by simp)
    · rw [h3] at hv; exact absurd hv (by simp)
    · rw [h4] at hv; exact absurd hv (by simp)
    · exact run_goodGrp_ne_empty _ "StructureName" _ _ _ (by decide) hb v
        (mem_of_lookup_eq_some hv)

end TG263

namespace TG263

/-- Claim C3: for every name the classifier assigns to BasicOAR (its
`StructureName` group matched), the final `Unmatched` flag is true
exactly when the pipeline's final remainder is a non-empty string; an
empty or missing (fully consumed) remainder leaves the name
conformant. -/
theorem claim_C3_unmatched_iff_remainder (s : String)
    (h : ((classify s).bind (fun caps => caps.lookup "StructureName")).isSome = true) :
    oarUnmatched s = true ↔ ∃ r, oarFinalRemainder s = some r ∧ r ≠ "" := by
  obtain ⟨caps, hcl⟩ : ∃ caps, classify s = some caps := by
    rcases hc : classify s with _ | caps
    · rw [hc] at h; simp at h
    · exact ⟨caps, rfl⟩
  have hnone : (classify s).isNone = false := by rw [hcl]; rfl
  rcases hrem : oarFinalRemainder s with _ | r
  · rw [oarUnmatched, hrem]
    show ((if um2 none then true else (classify s).isNone) = true ↔ _)
    rw [hnone]
    simp [um2]
  · rw [oarUnmatched, hrem]
    by_cases hr : r = ""
    · subst hr
      show ((if um2 (some "") then true else (classify s).isNone) = true ↔ _)
      rw [hnone]
      simp [um2]
    · have hlen : 0 < r.length := by
        rcases hd : r.data with _ | ⟨x, xs⟩
        · exact absurd (show r = "" from by
            have he : r = String.mk r.data := rfl
            rw [he, hd]) hr
        · simp [String.length, hd]
      show ((if um2 (some r) then true else (classify s).isNone) = true ↔ _)
      rw [show um2 (some r) = true from by simp [um2, hlen]]
      simp only [if_true, true_iff]
      exact ⟨r, rfl, hr⟩

/-- Witness for C3 at the BasicOAR name `Lung`. -/
theorem claim_C3_witness :
    oarUnmatched "Lung" = true ↔ ∃ r, oarFinalRemainder "Lung" = some r ∧ r ≠ "" :=
  claim_C3_unmatched_iff_remainder "Lung" (by decide)

/-- Witness for C1's two universal parts at the name `GTV`. -/
theorem claim_C1_witness :
    (classKeys.countP (fun k => (([("BaseTarget", "GTV"), ("TargetNumber", ""),
      ("TargetClassifier", ""), ("TargetType", "GTV")] : Caps).lookup k).isSome) = 1 ∧
    ∀ k ∈ classKeys, ∀ v, ([("BaseTarget", "GTV"), ("TargetNumber", ""),
      ("TargetClassifier", ""), ("TargetType", "GTV")] : Caps).lookup k = some v →
      v ≠ "") ∧
    (∃ caps, classify "GTV" = some caps ∧ (caps.lookup "BaseTarget").isSome ∧
      caps.lookup "StructureName" = none) :=
  ⟨claim_C1_priority_exclusive.1 "GTV"
    [("BaseTarget", "GTV"), ("TargetNumber", ""), ("TargetClassifier", ""),
     ("TargetType", "GTV")] (by decide),
   claim_C1_priority_exclusive.2.1 "GTV" (by decide) (by decide)⟩

/-- Witness for C4 at the name `zLung`. -/
theorem claim_C4_witness :
    (isNotEvaluated (String.mk ('z' :: "Lung".data)) = true ↔
      ('z' = 'z' ∨ 'z' = 'Z' ∨ 'z' = '_')) ∧
    (('z' = 'z' ∨ 'z' = 'Z' ∨ 'z' = '_') →
      classify (String.mk ('z' :: "Lung".data)) =
        some [("NotEvaluated", String.mk "Lung".data),
              ("NotEvalChar", String.mk ['z'])]) :=
  claim_C4_not_evaluated_prefix 'z' "Lung".data (by decide)

/-- Claim C2: the dose normalizer's example behaviour.  `50p4Gy` is
5040 cGy with no fraction count, `2000x3` and `20Gyx3` are 6000 cGy in 3
fractions, and empty or non-numeric text is returned verbatim with no
fraction count. -/
theorem claim_C2_dose_examples :
    to_cgy "50p4Gy" = ⟨.num 5040, none⟩ ∧
    to_cgy "2000x3" = ⟨.num 6000, some 3⟩ ∧
    to_cgy "20Gyx3" = ⟨.num 6000, some 3⟩ ∧
    to_cgy "" = ⟨.str "", none⟩ ∧
    to_cgy "abc" = ⟨.str "abc", none⟩ := by
  refine ⟨?_, ?_, ?_, rfl, rfl⟩
  · have h : to_cgy "50p4Gy" = ⟨.num (((digitsVal ['5', '0'] : ℚ) +
        (digitsVal ['4'] : ℚ) / (10 : ℚ) ^ List.length ['4']) * 100), none⟩ := rfl
    rw [h, show digitsVal ['5', '0'] = 50 from by decide,
      show digitsVal ['4'] = 4 from by decide]
    norm_num
  · have h : to_cgy "2000x3" =
        ⟨.num ((digitsVal ['2', '0', '0', '0'] : ℚ) * ((3 : Int) : ℚ)), some 3⟩ := rfl
    rw [h, show digitsVal ['2', '0', '0', '0'] = 2000 from by decide]
    norm_num
  · have h : to_cgy "20Gyx3" =
        ⟨.num ((digitsVal ['2', '0'] : ℚ) * 100 * ((3 : Int) : ℚ)), some 3⟩ := rfl
    rw [h, show digitsVal ['2', '0'] = 20 from by decide]
    norm_num

/-- Claim C9: `no_spaces` applies Python's bitwise `~` to a bool, so it
returns the integer -2 when the text contains a space and -1 when it does
not — never a falsy value, so as a boolean test every string passes as
space-free. -/
theorem claim_C9_no_spaces_truthy (s : String) :
    no_spaces s = (if s.data.contains ' ' then -2 else -1) ∧ no_spaces s ≠ 0 := by
  unfold no_spaces pyInvert
  rcases hb : s.data.contains ' '
  · simp [hb]
  · simp [hb]

/-- Claim C8 (code evaluation): `no_dup` detects the case-insensitive
duplicate in `["Lungs", "lungs"]` internally, but `~has_dup` turns it
into the integer -2 — a truthy value, not the `False` its own docstring
promises — while the duplicate-free `["Lungs", "Lung"]` yields -1, also
truthy.  Used as a boolean check, both lists pass. -/
theorem claim_C8_no_dup_eval :
    no_dup ["Lungs", "lungs"] = -2 ∧ no_dup ["Lungs", "Lung"] = -1 ∧
    ((-2 : Int) ≠ 0) ∧ ((-1 : Int) ≠ 0) := by
  refine ⟨by decide, by decide, by decide, by decide⟩

/-- Claim C5 (code evaluation): the category lookup table contains
`Spc`, and the structure-category pattern matches every other category
code with an `_`-delimited rest, but its compiled root-option list omits
`Spc`, so `Spc_Bowel` does not match at all (no category is extracted and
the remainder is left untouched). -/
theorem claim_C5_category_step_eval :
    ("Spc", "Space") ∈ category_def ∧
    pymatch major_category_re "Spc_Bowel" = none ∧
    ((category_def.filter (fun kv => kv.1 ≠ "Spc")).all (fun kv =>
      ((pymatch major_category_re (kv.1 ++ "_Rest")).bind
        (fun c => c.lookup "StructureCategory")) == some kv.1)) = true ∧
    ((pymatch major_category_re "Bone_Hyoid").bind
      (fun c => c.lookup "Remainder")) = some "Hyoid" := by
  refine ⟨by decide, by decide, by decide, by decide⟩

/-- Claim C6 (code evaluation): the spatial lookup table contains `RML`,
and the spatial-indicator pattern matches every other spatial code after
an `_`-delimited prefix, but its compiled alternative list omits `RML`,
so `Lung_RML` does not match at all. -/
theorem claim_C6_spatial_step_eval :
    ("RML", "Right middle lobe") ∈ spatial_def ∧
    pymatch spatial_re "Lung_RML" = none ∧
    ((spatial_def.filter (fun kv => kv.1 ≠ "RML")).all (fun kv =>
      ((pymatch spatial_re ("Lung_" ++ kv.1)).bind
        (fun c => c.lookup "SpatialIndicator")) == some kv.1)) = true := by
  refine ⟨by decide, by decide, by decide⟩

/-- Claim C10: when the text after the first `x` is the digit `0` and
the dose part parses as `d`, `to_cgy` returns fraction count 0 with total
dose `d` unchanged — the multiplication is skipped because Python's
`if fractions:` is false at 0. -/
theorem claim_C10_zero_fraction_count (t : String) (d : ℚ)
    (h0 : t ≠ "")
    (hx : (splitFirst 'x' (t.data.map (fun c => if c = 'p' then '.' else c))).2 =
      some ['0'])
    (hd : parseDosePart
      (splitFirst 'x' (t.data.map (fun c => if c = 'p' then '.' else c))).1 =
      some d) :
    to_cgy t = ⟨.num d, some 0⟩ := by
  unfold to_cgy
  rw [if_neg h0]
  simp only [hx]
  rw [show pyInt? ['0'] = some 0 from rfl]
  unfold to_cgy_finish
  rw [hd]
  norm_num

/-- Witness for C10 at the dose string `200x0`. -/
theorem claim_C10_witness : to_cgy "200x0" = ⟨.num 200, some 0⟩ := by
  have h := claim_C10_zero_fraction_count "200x0" 200 (by decide) (by decide)
    (by rw [show parseDosePart (splitFirst 'x'
      ("200x0".data.map (fun c => if c = 'p' then '.' else c))).1 =
      some ((digitsVal ['2', '0', '0'] : ℚ)) from rfl,
      show digitsVal ['2', '0', '0'] = 200 from by decide]; norm_num)
  exact h

theorem mem_star_cls {pch : Char → Bool} {g : Bool} {v : List Char} :
    ∀ (u : List Char), (∀ c ∈ u, pch c = true) →
      (v, ([] : Caps)) ∈ run (u.length + 1) (.star (.cls pch) g) (u ++ v) := by
  intro u
  induction u with
  | nil => intro _; exact star_intro_skip
  | cons c u' ih =>
    intro hu
    have h1 : (u' ++ v, ([] : Caps)) ∈ run (u'.length + 1) (.cls pch) (c :: (u' ++ v)) :=
      cls_intro (hu c (List.mem_cons_self _ _))
    have h2 : (v, ([] : Caps)) ∈ run (u'.length + 1) (.star (.cls pch) g) (u' ++ v) :=
      ih (fun x hx => hu x (List.mem_cons_of_mem _ hx))
    have h3 := star_intro_cons h1 (by simp) h2
    simpa using h3

theorem mem_plus_cls {pch : Char → Bool} {v : List Char} {u : List Char}
    (hne : u ≠ []) (hu : ∀ c ∈ u, pch c = true) :
    (v, ([] : Caps)) ∈ run (u.length + 1) (plusRE (.cls pch)) (u ++ v) := by
  rcases u with _ | ⟨c, u'⟩
  · exact absurd rfl hne
  · have h1 : (u' ++ v, ([] : Caps)) ∈ run (u'.length + 1) (.cls pch) (c :: (u' ++ v)) :=
      cls_intro (hu c (List.mem_cons_self _ _))
    have h2 : (v, ([] : Caps)) ∈
        run (u'.length + 1) (.star (.cls pch) true) (u' ++ v) :=
      mem_star_cls u' (fun x hx => hu x (List.mem_cons_of_mem _ hx))
    have h3 := cat_intro h1 h2
    simpa [plusRE] using h3

theorem digit_ne_x {c : Char} (h : c.isDigit = true) : (c != 'x') = true := by
  rcases hc : c == 'x'
  · simp [bne, hc]
  · rw [beq_iff_eq.mp hc] at h
    exact absurd h (by decide)

theorem dotp_ne_x {c : Char} (h : (c == '.' || c == 'p') = true) :
    (c != 'x') = true := by
  rcases (Bool.or_eq_true _ _).mp h with h | h <;> rw [beq_iff_eq.mp h] <;> decide

theorem gy_ne_x {c : Char} (h : (c == 'G' || c == 'y') = true) :
    (c != 'x') = true := by
  rcases (Bool.or_eq_true _ _).mp h with h | h <;> rw [beq_iff_eq.mp h] <;> decide

theorem charBound_num : charBound (fun c => c != 'x') numeric_dose_re := by
  unfold numeric_dose_re plusRE digitC dotpC gyC
  exact ⟨⟨fun c h => digit_ne_x h, fun c h => digit_ne_x h⟩,
    fun c h => dotp_ne_x h, fun c h => digit_ne_x h, fun c h => gy_ne_x h⟩

theorem run_rel_dose_empty {f : Nat} {c : Char} {cs : List Char}
    (hd : c.isDigit = true) : run f rel_dose_re (c :: cs) = [] := by
  have hH : c ≠ 'H' := fun e => absurd (e ▸ hd) (by decide)
  have hL : c ≠ 'L' := fun e => absurd (e ▸ hd) (by decide)
  have hM : c ≠ 'M' := fun e => absurd (e ▸ hd) (by decide)
  unfold rel_dose_re
  rcases f with _ | f
  · simp [run]
  · rw [grp_run_eq]
    rcases f with _ | f
    · simp [run]
    · rw [alt_run_eq]
      rw [show litRE "High".data = litRE ('H' :: ['i', 'g', 'h']) from rfl,
        run_lit_head_ne hH, List.nil_append]
      rcases f with _ | f
      · simp [run]
      · rw [alt_run_eq]
        rw [show litRE "Low".data = litRE ('L' :: ['o', 'w']) from rfl,
          run_lit_head_ne hL, List.nil_append]
        rcases f with _ | f
        · simp [run]
        · rw [cat_run_eq]
          rw [show litRE "Mid".data = litRE ('M' :: ['i', 'd']) from rfl,
            run_lit_head_ne hM]
          simp

end TG263

namespace TG263

theorem consumedStr_nil (s : List Char) : consumedStr s [] = String.mk s := by
  simp [consumedStr]

theorem consumedStr_nil_str (d : String) : consumedStr d.data [] = d :=
  (consumedStr_nil d.data).trans rfl

/-- Claim C7: in the dose-specifier alternation the fraction-dose form is
tried before the plain numeric form, so every dose token of the
fraction-dose shape is captured whole — both `DoseSpecifier` and
`DoseFractionation` hold the full token — and on the complete Target name
`PTV_2000x3` the classifier captures `2000x3`, not the prefix `2000`. -/
theorem claim_C7_fraction_before_numeric :
    (∀ d : String, FracShape d →
      ∃ caps, pyfullmatch dose_specifier_re (String.mk ('_' :: d.data)) = some caps ∧
        caps.lookup "DoseSpecifier" = some d ∧
        caps.lookup "DoseFractionation" = some d) ∧
    ((classify "PTV_2000x3").bind (fun c => c.lookup "DoseFractionation") =
      some "2000x3") ∧
    ((classify "PTV_2000x3").bind (fun c => c.lookup "DoseSpecifier") =
      some "2000x3") := by
  refine ⟨?_, by decide, by decide⟩
  intro d hshape
  obtain ⟨i, p, j, g, k, hdec, hine, hidig, hpc, hjdig, hgy, hkne, hkdig⟩ := hshape
  have hcidig : ∀ c ∈ i, Char.isDigit c = true :=
    fun c hc => List.all_eq_true.mp hidig c hc
  have hheadd : ∃ ci i', i = ci :: i' ∧ ci.isDigit = true := by
    rcases i with _ | ⟨ci, i'⟩
    · exact absurd rfl hine
    · exact ⟨ci, i', rfl, hcidig ci (List.mem_cons_self _ _)⟩
  have hlen : i.length + p.length + j.length + g.length + k.length + 1 =
      d.data.length := by
    rw [hdec]
    simp [List.length_append]
    omega
  have hnfplus : nlaFree (plusRE digitC) = true := by decide
  have hnfstard : nlaFree (.star digitC true) = true := by decide
  have hnfstarg : nlaFree (.star gyC true) = true := by decide
  -- the fuel base
  set F : Nat := d.data.length + 1 with hF
  -- piece 6: trailing digits
  have hc6 : (([] : List Char), ([] : Caps)) ∈ run F (plusRE digitC) k := by
    have h := mem_plus_cls (v := []) hkne
      (fun c hc => List.all_eq_true.mp hkdig c hc)
    rw [List.append_nil] at h
    exact run_mono_le hnfplus (by omega) h
  -- piece 5: the literal x
  have hc5 : (k, ([] : Caps)) ∈ run F (.chr 'x') ('x' :: k) := chr_intro
  have c56 : (([] : List Char), ([] : Caps)) ∈
      run (F + 1) (.cat (.chr 'x') (plusRE digitC)) ('x' :: k) := by
    simpa using cat_intro hc5 hc6
  -- piece 4: the Gy marker
  have hc4 : ('x' :: k, ([] : Caps)) ∈
      run (F + 1) (.star gyC true) (g ++ 'x' :: k) := by
    have h := mem_star_cls (g := true) (v := 'x' :: k) g
      (fun c hc => List.all_eq_true.mp hgy c hc)
    exact run_mono_le hnfstarg (by omega) h
  have c456 : (([] : List Char), ([] : Caps)) ∈
      run (F + 2) (.cat (.star gyC true) (.cat (.chr 'x') (plusRE digitC)))
        (g ++ 'x' :: k) := by
    simpa using cat_intro hc4 c56
  -- piece 3: fractional digits
  have hc3 : (g ++ 'x' :: k, ([] : Caps)) ∈
      run (F + 2) (.star digitC true) (j ++ (g ++ 'x' :: k)) := by
    have h := mem_star_cls (g := true) (v := g ++ 'x' :: k) j
      (fun c hc => List.all_eq_true.mp hjdig c hc)
    exact run_mono_le hnfstard (by omega) h
  have c3456 : (([] : List Char), ([] : Caps)) ∈
      run (F + 3) (.cat (.star digitC true)
        (.cat (.star gyC true) (.cat (.chr 'x') (plusRE digitC))))
        (j ++ (g ++ 'x' :: k)) := by
    simpa using cat_intro hc3 c456
  -- piece 2: the optional decimal point
  have hc2 : (j ++ (g ++ 'x' :: k), ([] : Caps)) ∈
      run (F + 3) (.opt dotpC true) (p ++ (j ++ (g ++ 'x' :: k))) := by
    rcases hpc with rfl | rfl | rfl
    · rw [List.nil_append]
      exact opt_intro_skip
    · exact opt_intro_some (cls_intro (by decide))
    · exact opt_intro_some (cls_intro (by decide))
  have c23456 : (([] : List Char), ([] : Caps)) ∈
      run (F + 4) (.cat (.opt dotpC true) (.cat (.star digitC true)
        (.cat (.star gyC true) (.cat (.chr 'x') (plusRE digitC)))))
        (p ++ (j ++ (g ++ 'x' :: k))) := by
    simpa using cat_intro hc2 c3456
  -- piece 1: the leading digits
  have hc1 : (p ++ (j ++ (g ++ 'x' :: k)), ([] : Caps)) ∈
      run (F + 4) (plusRE digitC) (i ++ (p ++ (j ++ (g ++ 'x' :: k)))) := by
    have h := mem_plus_cls (v := p ++ (j ++ (g ++ 'x' :: k))) hine
      (fun c hc => List.all_eq_true.mp hidig c hc)
    exact run_mono_le hnfplus (by omega) h
  have cbody : (([] : List Char), ([] : Caps)) ∈
      run (F + 5) (.cat (plusRE digitC) (.cat (.opt dotpC true)
        (.cat (.star digitC true) (.cat (.star gyC true)
          (.cat (.chr 'x') (plusRE digitC)))))) d.data := by
    rw [hdec]
    simpa using cat_intro hc1 c23456
  -- wrap in the DoseFractionation group
  have hfrac : (([] : List Char),
      ([("DoseFractionation", d)] : Caps)) ∈
      run (F + 6) dose_fraction_re d.data := by
    have h := grp_intro (n := "DoseFractionation") cbody
    rw [consumedStr_nil_str] at h
    exact h
  -- inject into the dose-specifier alternation
  have halt : (([] : List Char), ([("DoseFractionation", d)] : Caps)) ∈
      run (F + 8) (.alt rel_dose_re (.alt dose_fraction_re numeric_dose_re))
        d.data :=
    alt_intro_right (alt_intro_left hfrac)
  have hds : (([] : List Char),
      ([("DoseSpecifier", d), ("DoseFractionation", d)] : Caps)) ∈
      run (F + 9) (.grp "DoseSpecifier"
        (.alt rel_dose_re (.alt dose_fraction_re numeric_dose_re))) d.data := by
    have h := grp_intro (n := "DoseSpecifier") halt
    rw [consumedStr_nil_str] at h
    exact h
  have hchr : (d.data, ([] : Caps)) ∈
      run (F + 9) (.chr '_') ('_' :: d.data) := chr_intro
  have hcat : (([] : List Char),
      ([("DoseSpecifier", d), ("DoseFractionation", d)] : Caps)) ∈
      run (F + 10) (.cat (.chr '_') (.grp "DoseSpecifier"
        (.alt rel_dose_re (.alt dose_fraction_re numeric_dose_re))))
        ('_' :: d.data) := by
    simpa using cat_intro hchr hds
  have hopt : (([] : List Char),
      ([("DoseSpecifier", d), ("DoseFractionation", d)] : Caps)) ∈
      run (F + 11) dose_specifier_re ('_' :: d.data) :=
    opt_intro_some hcat
  have hfin : (([] : List Char),
      ([("DoseSpecifier", d), ("DoseFractionation", d)] : Caps)) ∈
      run (fuelFor (String.mk ('_' :: d.data))) dose_specifier_re
        (String.mk ('_' :: d.data)).data := by
    have hfuel : F + 11 ≤ fuelFor (String.mk ('_' :: d.data)) := by
      simp only [fuelFor, String.length, List.length_cons, hF]
      omega
    exact run_mono_le (by decide) hfuel hopt
  -- the first full result exists; analyse its shape
  have hfindSome : ((run (fuelFor (String.mk ('_' :: d.data))) dose_specifier_re
      (String.mk ('_' :: d.data)).data).find? (fun p => p.1.isEmpty)).isSome :=
    findFirst_isSome_of_mem hfin rfl
  obtain ⟨resF, hres⟩ := Option.isSome_iff_exists.mp hfindSome
  have hmem := List.mem_of_find?_eq_some hres
  have hemp : resF.1 = [] := by
    have := List.find?_some hres
    simpa using this
  obtain ⟨f1, hf1, hcase⟩ := mem_run_opt hmem
  rcases hcase with heqskip | hmem2
  · exact absurd (show ('_' :: d.data) = ([] : List Char) from by
      rw [heqskip] at hemp; exact hemp) (by simp)
  · obtain ⟨f2, pch, q, hf2, hpch, hq, heq⟩ := mem_run_cat hmem2
    obtain ⟨cs0, hcs0, rfl⟩ := mem_run_chr hpch
    have hcseq : cs0 = d.data := by
      have h' : ('_' :: d.data) = ('_' :: cs0) := hcs0
      injection h' with h1 h2
      exact h2.symm
    subst hcseq
    obtain ⟨f3, p2, hf3, hp2, heqq⟩ := mem_run_grp hq
    have hq1 : q.1 = p2.1 := by rw [heqq]
    have hres1 : resF.1 = q.1 := by rw [heq]
    have hp21 : p2.1 = [] := by rw [← hq1, ← hres1, hemp]
    obtain ⟨f4, hf4, hcase2⟩ := mem_run_alt hp2
    rcases hcase2 with hrel | hp3
    · obtain ⟨ci, i', hieq, hcid⟩ := hheadd
      have hrel' : p2 ∈ run f4 rel_dose_re
          (ci :: (i' ++ (p ++ (j ++ (g ++ 'x' :: k))))) := by
        rw [← List.cons_append, ← hieq, ← hdec]
        exact hrel
      rw [run_rel_dose_empty hcid] at hrel'
      simp at hrel'
    · obtain ⟨f5, hf5, hcase3⟩ := mem_run_alt hp3
      rcases hcase3 with hfr | hnum
      · obtain ⟨f6, p3, hf6, hp3b, heq3⟩ := mem_run_grp hfr
        have hp31 : p3.1 = [] := by
          have : p2.1 = p3.1 := by rw [heq3]
          rw [← this, hp21]
        refine ⟨resF.2, ?_, ?_, ?_⟩
        · unfold pyfullmatch
          rw [hres]
          rfl
        · rw [heq, heqq]
          simp only [hp21, consumedStr_nil_str]
          rw [List.cons_append]
          rw [lookup_cons_self]
        · rw [heq, heqq, heq3]
          simp only [hp21, hp31, consumedStr_nil_str]
          rw [List.cons_append, List.cons_append]
          rw [lookup_cons_ne _ _ (by decide), lookup_cons_self]
      · obtain ⟨u, hu, hall⟩ := run_charBound f5 _ numeric_dose_re d.data p2
          charBound_num hnum
        rw [hp21, List.append_nil] at hu
        have hxmem : 'x' ∈ d.data := by
          rw [hdec]
          refine List.mem_append_right _ ?_
          refine List.mem_append_right _ ?_
          refine List.mem_append_right _ ?_
          refine List.mem_append_right _ ?_
          exact List.mem_cons_self _ _
        rw [hu] at hxmem
        have := List.all_eq_true.mp hall 'x' hxmem
        simp at this

/-- Witness for C7's universal part at the dose token `2000x3`. -/
theorem claim_C7_witness :
    ∃ caps, pyfullmatch dose_specifier_re (String.mk ('_' :: "2000x3".data)) =
        some caps ∧
      caps.lookup "DoseSpecifier" = some "2000x3" ∧
      caps.lookup "DoseFractionation" = some "2000x3" :=
  claim_C7_fraction_before_numeric.1 "2000x3"
    ⟨['2', '0', '0', '0'], [], [], [], ['3'], by decide⟩

end TG263